import Mathlib

/-!
Verification of the analytics core of the case_locations repository:
the company holiday calendar and business-day arithmetic (src/holidays.py),
the follow-up date resolver (src/date_parser.py), and the four-stage
employee-efficiency pipeline (dashboard/data/efficiency_processing.py).

Conventions of the shallow embedding:
* Python `date` objects are modelled by the `Date` structure (year, month,
  day as integers); day-level arithmetic uses the rata-die day number
  `toRD` (days since 1970-01-01, Howard Hinnant's `days_from_civil`).
* Where a function only ever steps dates by whole days and tests weekday
  or set membership (the business-day utilities), dates are modelled
  directly by their rata-die number (an `Int`), with `weekday d = (d+3) % 7`
  matching Python's Monday=0 convention (1970-01-01 was a Thursday, 3).
* pandas DataFrames are modelled as lists of records; floats as `ℚ`;
  NaN-able columns as `Option`; `.round(2)` as `round2` (round half away
  from zero at the second decimal; the tie behaviour of binary floats is
  not observable at the granularity of these claims).
* Python string comparison (used by pandas sorts on object columns) is
  code-point lexicographic; it is modelled by `strLtB`/`strLeB` below.
-/

/-- A calendar date, mirroring Python's `datetime.date` triple. -/
structure Date where
  year : Int
  month : Int
  day : Int
deriving DecidableEq

/-- Gregorian leap-year test (Python `calendar.isleap` semantics,
used by `datetime.date` validity). -/
def isLeapYear (y : Int) : Bool :=
  y % 4 = 0 && (y % 100 ≠ 0 || y % 400 = 0)

/-- Number of days in a month of a given year. -/
def daysInMonth (y m : Int) : Int :=
  if m = 2 then (if isLeapYear y then 29 else 28)
  else if m = 4 ∨ m = 6 ∨ m = 9 ∨ m = 11 then 30
  else 31

/-- Validity of a `Date` as a real calendar date (what Python's
`date(year, month, day)` constructor accepts, modulo its year bounds). -/
def isValidDate (d : Date) : Bool :=
  1 ≤ d.month && d.month ≤ 12 && 1 ≤ d.day && d.day ≤ daysInMonth d.year d.month

/-- Days since 1970-01-01 of a civil date (Hinnant's `days_from_civil`).
Lean's `Int` division/modulo are Euclidean, which agrees with the
algorithm's intent for the operand signs arising here. -/
def daysFromCivil (y m d : Int) : Int :=
  let y2 := if m ≤ 2 then y - 1 else y
  let era := (if 0 ≤ y2 then y2 else y2 - 399) / 400
  let yoe := y2 - era * 400
  let doy := (153 * (m + (if 2 < m then -3 else 9)) + 2) / 5 + d - 1
  let doe := yoe * 365 + yoe / 4 - yoe / 100 + doy
  era * 146097 + doe - 719468

/-- Rata-die day number of a `Date`. -/
def toRD (d : Date) : Int := daysFromCivil d.year d.month d.day

/-- Python's `date.weekday()`: Monday = 0 … Sunday = 6. -/
def pyWeekday (d : Date) : Int := (toRD d + 3) % 7

/-! ## src/holidays.py — computed company holiday calendar -/

/-- `holidays.py` Memorial Day computation: `may_31 - ((may_31.weekday() + 1) % 7)`.
The subtraction stays inside May (at most 6 days back from the 31st). -/
def memorial_day (year : Int) : Date :=
  let days_back_to_monday := (pyWeekday ⟨year, 5, 31⟩ + 1) % 7
  ⟨year, 5, 31 - days_back_to_monday⟩

/-- `holidays.py` Labor Day: first Monday of September,
`sep_1 + ((7 - sep_1.weekday()) % 7)`. -/
def labor_day (year : Int) : Date :=
  let days_to_monday := (7 - pyWeekday ⟨year, 9, 1⟩) % 7
  ⟨year, 9, 1 + days_to_monday⟩

/-- `holidays.py` Thanksgiving: 4th Thursday of November,
`nov_1 + ((3 - nov_1.weekday()) % 7) + 21`. Day is between 22 and 28. -/
def thanksgiving (year : Int) : Date :=
  let days_to_thursday := (3 - pyWeekday ⟨year, 11, 1⟩) % 7
  ⟨year, 11, 1 + days_to_thursday + 21⟩

/-- `holidays.py` day after Thanksgiving (`thanksgiving + timedelta(days=1)`;
stays inside November since Thanksgiving's day is at most 28). -/
def day_after_thanksgiving (year : Int) : Date :=
  ⟨year, 11, (thanksgiving year).day + 1⟩

/-- `get_company_holidays(year)` from src/holidays.py: the computed holiday
set (Python builds a `set`, modelled as a `Finset`), inserted in source order. -/
def get_company_holidays (year : Int) : Finset Date :=
  {⟨year, 1, 1⟩, ⟨year, 1, 2⟩, memorial_day year, ⟨year, 7, 4⟩, labor_day year,
   ⟨year, 11, 11⟩, thanksgiving year, day_after_thanksgiving year,
   ⟨year, 12, 25⟩, ⟨year, 12, 26⟩}

/-! ## Business-day utilities (src/holidays.py and
`_get_business_days_ago` of efficiency_processing.py)

These functions only step a date by ±1 day and test weekday/holiday
membership, so dates are their rata-die numbers and the ambient holiday
set (`get_all_company_holidays()`, which depends on an external CSV file
and the current year) is an explicit `List Int` parameter. -/

/-- A business day: `candidate.weekday() < 5 and candidate not in holidays`. -/
def isBusinessDay (hol : List Int) (d : Int) : Bool :=
  decide ((d + 3) % 7 < 5 ∧ d ∉ hol)

/-- Linear forward scan: first `c' ≥ c` with `p c'`, searched with explicit
fuel (the loops in the source scan day by day; fuel makes the recursion
structural, and is always chosen large enough — see the search lemmas). -/
def searchFrom (p : Int → Bool) : Nat → Int → Int
  | 0, c => c
  | n + 1, c => if p c then c else searchFrom p n (c + 1)

/-- Linear backward scan: first `c' ≤ c` with `p c'`. -/
def searchBack (p : Int → Bool) : Nat → Int → Int
  | 0, c => c
  | n + 1, c => if p c then c else searchBack p n (c - 1)

/-- Upper bound of the holiday list (and `d`); beyond it every weekday is a
business day. -/
def holidayUpperBound (hol : List Int) (d : Int) : Int := hol.foldl max d

/-- Lower bound of the holiday list (and `d`). -/
def holidayLowerBound (hol : List Int) (d : Int) : Int := hol.foldl min d

/-- Fuel sufficient for the forward scan to find a business day. -/
def nextSearchLen (hol : List Int) (d : Int) : Nat :=
  (holidayUpperBound hol d - d).toNat + 8

/-- Fuel sufficient for the backward scan to find a business day. -/
def prevSearchLen (hol : List Int) (d : Int) : Nat :=
  (d - holidayLowerBound hol d).toNat + 8

/-- The first business day strictly after `d` (one pass of the scanning
loop of `next_x_business_days`). -/
def next_business_day (hol : List Int) (d : Int) : Int :=
  searchFrom (isBusinessDay hol) (nextSearchLen hol d) (d + 1)

/-- The first business day strictly before `d` (the loop of
`previous_business_day`, also one backward pass of `_get_business_days_ago`). -/
def prev_business_day (hol : List Int) (d : Int) : Int :=
  searchBack (isBusinessDay hol) (prevSearchLen hol d) (d - 1)

/-- `next_x_business_days(reference, x)` from src/holidays.py: the loop counts
`x` business days strictly after the reference and returns the last counted
one, i.e. the `x`-fold iterate of `next_business_day` (for `x = 0` the loop
body never runs and the function returns the reference itself). -/
def next_x_business_days (hol : List Int) (reference : Int) (x : Nat) : Int :=
  (next_business_day hol)^[x] reference

/-- `_get_business_days_ago(n, reference)` from efficiency_processing.py: the
loop counts `n` business days strictly before the reference (for `n = 0` the
loop body never runs and the function returns `reference - 1`). -/
def get_business_days_ago (hol : List Int) (n : Nat) (reference : Int) : Int :=
  if n = 0 then reference - 1 else (prev_business_day hol)^[n] reference

/-! ## src/date_parser.py — follow-up date extraction and year resolution -/

/-- Scoring of a candidate inside `_resolve_year`: candidates more than
180 days ahead or more than 365 days back score infinity (modelled `none`);
on/before the reference the score is `|days difference| - 30` (the 30-day
past bias); strictly after, the plain days difference. -/
def score_candidate (reference c : Date) : Option Int :=
  let days_diff := toRD c - toRD reference
  if 180 < days_diff then none
  else if days_diff < -365 then none
  else if days_diff ≤ 0 then some (|days_diff| - 30)
  else some days_diff

/-- Candidate dates of `_resolve_year`: previous, current, next year of the
reference, dropping combinations that are not valid calendar dates. -/
def year_candidates (month day : Int) (reference : Date) : List Date :=
  [reference.year - 1, reference.year, reference.year + 1].filterMap
    (fun y => if isValidDate ⟨y, month, day⟩ then some ⟨y, month, day⟩ else none)

/-- Python's `min(..., key=score)`: the first element attaining the minimal
score (later elements replace the current best only on strictly smaller
score). -/
def pickMinFirst : List (Date × Int) → Option (Date × Int)
  | [] => none
  | x :: xs =>
    match pickMinFirst xs with
    | none => some x
    | some y => some (if y.2 < x.2 then y else x)

/-- `_resolve_year(month, day, reference_date)` from src/date_parser.py. -/
def resolve_year (month day : Int) (reference : Date) : Option Date :=
  let scored := (year_candidates month day reference).filterMap
    (fun c => (score_candidate reference c).map (fun s => (c, s)))
  (pickMinFirst scored).map (fun p => p.1)

/-- Python `\s` (ASCII range): space, tab, newline, carriage return,
vertical tab, form feed. -/
def isSpaceChar (c : Char) : Bool :=
  c = ' ' || c = '\t' || c = '\n' || c = '\r' || c = '\x0b' || c = '\x0c'

/-- Numeric value of a digit character. -/
def digitVal (c : Char) : Int := ((c.toNat - '0'.toNat : Nat) : Int)

/-- Case-insensitive match of the three marker codes AFU/ZFU/EFU. -/
def isMarkerTriple (a b c : Char) : Bool :=
  let u := [a.toUpper, b.toUpper, c.toUpper]
  u = ['A', 'F', 'U'] || u = ['Z', 'F', 'U'] || u = ['E', 'F', 'U']

/-- Match the marker token itself at the head of the text. -/
def matchMarkerCore : List Char → Option (List Char)
  | a :: b :: c :: rest => if isMarkerTriple a b c then some rest else none
  | _ => none

/-- Match `\(?(AFU|ZFU|EFU)` at the head of the text: an optional opening
parenthesis (if present, the marker must follow it, since a marker cannot
itself start with a parenthesis). -/
def matchMarker : List Char → Option (List Char)
  | '(' :: rest => matchMarkerCore rest
  | l => matchMarkerCore l

/-- Match `\)?`: consume one closing parenthesis when present. -/
def skipCloseParen : List Char → List Char
  | ')' :: rest => rest
  | l => l

/-- Match `\s*` greedily (no backtracking is needed because a digit is
never a space). -/
def skipSpaces : List Char → List Char
  | [] => []
  | c :: rest => if isSpaceChar c then skipSpaces rest else c :: rest

/-- Match one digit followed by a slash. -/
def matchNum1Slash : List Char → Option (Int × List Char)
  | a :: '/' :: rest => if a.isDigit then some (digitVal a, rest) else none
  | _ => none

/-- Match `(\d{1,2})/`: greedily two digits then the slash, backtracking to
one digit (regex semantics of `\d{1,2}` followed by `/`). -/
def matchNum1or2Slash (l : List Char) : Option (Int × List Char) :=
  match l with
  | a :: b :: '/' :: rest =>
    if a.isDigit && b.isDigit then some (10 * digitVal a + digitVal b, rest)
    else matchNum1Slash l
  | _ => matchNum1Slash l

/-- Match the trailing `(\d{1,2})`: greedily two digits, else one. -/
def matchNum1or2End : List Char → Option (Int × List Char)
  | a :: b :: rest =>
    if a.isDigit && b.isDigit then some (10 * digitVal a + digitVal b, rest)
    else if a.isDigit then some (digitVal a, b :: rest)
    else none
  | [a] => if a.isDigit then some (digitVal a, []) else none
  | [] => none

/-- Try to match the whole pattern
`\(?(AFU|ZFU|EFU)\)?\s*(\d{1,2})/(\d{1,2})` at the head of the text,
returning the (month, day) groups and the remaining text. -/
def tryMatch (l : List Char) : Option ((Int × Int) × List Char) :=
  match matchMarker l with
  | none => none
  | some l1 =>
    match matchNum1or2Slash (skipSpaces (skipCloseParen l1)) with
    | none => none
    | some (m, l2) =>
      match matchNum1or2End l2 with
      | none => none
      | some (d, l3) => some ((m, d), l3)

/-- `re.findall` driver: scan left to right, at each position try the
pattern; on success record the groups and continue after the match, else
advance one character. Fuel = text length (every successful match consumes
at least one character, so the fuel never runs out). -/
def findMatchesAux : Nat → List Char → List (Int × Int)
  | 0, _ => []
  | _ + 1, [] => []
  | fuel + 1, c :: rest =>
    match tryMatch (c :: rest) with
    | some (md, rem) => md :: findMatchesAux fuel rem
    | none => findMatchesAux fuel rest

/-- All `(month, day)` fragments matched in the text, in scan order. -/
def findMatches (l : List Char) : List (Int × Int) :=
  findMatchesAux l.length l

/-- The range validation of `extract_follow_up_date`:
`1 <= month <= 12 and 1 <= day <= 31`. -/
def valid_fragment (month day : Int) : Bool :=
  1 ≤ month && month ≤ 12 && 1 ≤ day && day ≤ 31

/-- The resolved dates collected by `extract_follow_up_date`: each matched
fragment is range-validated (invalid ones are silently dropped) and then
year-resolved (fragments whose resolution fails contribute nothing). -/
def resolved_dates (text : List Char) (reference : Date) : List Date :=
  (findMatches text).filterMap
    (fun md => if valid_fragment md.1 md.2 then resolve_year md.1 md.2 reference else none)

/-- `extract_follow_up_date(hold_reason, reference_date)` from
src/date_parser.py: `None` when no fragment survives, otherwise the
latest resolved date (`max(resolved_dates)`; Python's date order is the
chronological order, i.e. the rata-die order). Empty/NaN text has no
matches and falls into the `[]` case. -/
def extract_follow_up_date (text : List Char) (reference : Date) : Option Date :=
  match resolved_dates text reference with
  | [] => none
  | d :: ds => some (ds.foldl (fun a b => if toRD a < toRD b then b else a) d)

/-! ## Shared helpers for the pipeline embedding -/

/-- pandas `.round(2)`: round at the second decimal. -/
def round2 (q : ℚ) : ℚ := ((round (q * 100) : ℤ) : ℚ) / 100

/-- Keep the first occurrence of each element (pandas
`drop_duplicates`/`unique` keep-first semantics), worker with seen-set. -/
def dedupKeepFirstAux [DecidableEq α] (seen : List α) : List α → List α
  | [] => []
  | a :: l =>
    if a ∈ seen then dedupKeepFirstAux seen l
    else a :: dedupKeepFirstAux (a :: seen) l

/-- Keep the first occurrence of each element. -/
def dedupKeepFirst [DecidableEq α] (l : List α) : List α := dedupKeepFirstAux [] l

/-- Code-point comparison of characters (Python string semantics). -/
def listLtB : List Char → List Char → Bool
  | [], [] => false
  | [], _ :: _ => true
  | _ :: _, [] => false
  | c :: cs, d :: ds =>
    if c.toNat < d.toNat then true
    else if d.toNat < c.toNat then false
    else listLtB cs ds

/-- Python `str <`: code-point lexicographic. -/
def strLtB (a b : String) : Bool := listLtB a.data b.data

/-- Python `str <=`. -/
def strLeB (a b : String) : Bool := !(strLtB b a)

/-! ## Stage 1 — task aggregation
(`stage1_task_processing` of efficiency_processing.py) -/

/-- One raw SQL task row after the column renames of step 1a. `Duration`
may fail numeric parsing (`pd.to_numeric(errors="coerce")` → `none`) and
`Rejected` may be null; `CompleteDate` is a timestamp measured in days
(fractions are times of day). Unused columns (Quantity, CaseProductID)
are omitted. -/
structure RawTaskRow where
  employeeID : Int
  caseNumber : Int
  completeDate : ℚ
  task : String
  rejected : Option Int
  duration : Option ℚ
deriving DecidableEq

/-- Step 1b: `Duration` parse failures become 0. -/
def stage1_duration (r : RawTaskRow) : ℚ := r.duration.getD 0

/-- Step 1c: null `Rejected` becomes 0. -/
def stage1_rejected (r : RawTaskRow) : Int := r.rejected.getD 0

/-- The natural key of the anti-join of step 1e:
`(CaseNumber, CompleteDate, Task, EmployeeID)`. -/
def taskKey (r : RawTaskRow) : Int × ℚ × String × Int :=
  (r.caseNumber, r.completeDate, r.task, r.employeeID)

/-- Step 1d: re-filter to `start_dt <= CompleteDate < end_dt + 1 day`. -/
def stage1_filtered (raw : List RawTaskRow) (start_d end_d : ℚ) : List RawTaskRow :=
  raw.filter (fun r => start_d ≤ r.completeDate ∧ r.completeDate < end_d + 1)

/-- Step 1e, left side: the deduplicated keys of the rejected rows. -/
def rejected_keys (rows : List RawTaskRow) : List (Int × ℚ × String × Int) :=
  dedupKeepFirst ((rows.filter (fun r => stage1_rejected r = 1)).map taskKey)

/-- Step 1e: the left-merge with `indicator=True` keeping `left_only` rows
is exactly the removal of every row whose key occurs among the rejected
keys (the rejected frame is deduplicated on the full key, so no row is
multiplied). When there are no rejected rows the source skips the merge,
which coincides with filtering against the empty key list. -/
def stage1_kept (rows : List RawTaskRow) : List RawTaskRow :=
  rows.filter (fun r => taskKey r ∉ rejected_keys rows)

/-- One output row of Stage 1. -/
structure Stage1Row where
  employeeID : String
  cases_worked_on : Nat
  tasks_completed : Nat
  tasks_duration_hours : ℚ
deriving DecidableEq

/-- The sorted distinct employee ids of step 1f/1g (pandas `groupby` sorts
its keys ascending; the later explicit sort is a no-op). -/
def stage1_employees (rows : List RawTaskRow) : List Int :=
  (dedupKeepFirst (rows.map (fun r => r.employeeID))).insertionSort (fun a b => a ≤ b)

/-- The per-employee aggregate of step 1f: distinct case count, row count,
2-decimal summed duration; step 1g casts the employee id to string. -/
def stage1_agg_row (rows : List RawTaskRow) (eid : Int) : Stage1Row :=
  let mine := rows.filter (fun r => r.employeeID = eid)
  { employeeID := toString eid
    cases_worked_on := (dedupKeepFirst (mine.map (fun r => r.caseNumber))).length
    tasks_completed := mine.length
    tasks_duration_hours := round2 ((mine.map stage1_duration).sum) }

/-- `stage1_task_processing(raw_df, start_date, end_date)`: empty input
short-circuits to the empty (schema-only) frame. -/
def stage1_task_processing (raw : List RawTaskRow) (start_d end_d : ℚ) : List Stage1Row :=
  match raw with
  | [] => []
  | _ =>
    let kept := stage1_kept (stage1_filtered raw start_d end_d)
    (stage1_employees kept).map (stage1_agg_row kept)

/-! ## Stage 3 — combine & efficiency
(`stage3_combine` of efficiency_processing.py) -/

/-- One Stage-2 (Gusto) row: date string, employee id already stringified
(step 3a casts both sides to `str`), names, team, training plan, worked
hours. -/
structure GustoRow where
  date : String
  employeeID : String
  gustoName : String
  mtName : String
  team : String
  trainingPlan : Int
  workHours : ℚ
deriving DecidableEq

/-- One Stage-3 output row (the column order of step 3c). -/
structure Stage3Row where
  date : String
  employeeID : String
  gustoName : String
  mtName : String
  team : String
  trainingPlan : Int
  workHours : ℚ
  cases_worked_on : Nat
  tasks_completed : Nat
  tasks_duration_hours : ℚ
  efficiency : ℚ
deriving DecidableEq

/-- Step 3d on one joined row: `Efficiency = (Tasks_Duration_Hours /
Work_Hours.replace(0, nan)) * 100`, then `fillna(0).round(2)` — zero worked
hours short-circuit to efficiency 0 (and `round2 0 = 0`); `Work Hours`
itself is rounded to 2 decimals. -/
def stage3_row (g : GustoRow) (t : Stage1Row) : Stage3Row :=
  { date := g.date
    employeeID := g.employeeID
    gustoName := g.gustoName
    mtName := g.mtName
    team := g.team
    trainingPlan := g.trainingPlan
    workHours := round2 g.workHours
    cases_worked_on := t.cases_worked_on
    tasks_completed := t.tasks_completed
    tasks_duration_hours := t.tasks_duration_hours
    efficiency := if g.workHours = 0 then 0
      else round2 (t.tasks_duration_hours / g.workHours * 100) }

/-- `stage3_combine(task_df, gusto_df)`: inner join on the (string)
employee id, in pandas' left-frame (gusto) order. -/
def stage3_combine (task_df : List Stage1Row) (gusto_df : List GustoRow) : List Stage3Row :=
  gusto_df.flatMap (fun g =>
    (task_df.filter (fun t => t.employeeID = g.employeeID)).map (stage3_row g))

/-! ## Historical merge of `run_full_upload` -/

/-- The distinct dates of the new daily rows
(`daily_new["Date"].unique().tolist()`). -/
def dates_to_replace (new : List Stage3Row) : List String :=
  dedupKeepFirst (new.map (fun r => r.date))

/-- The sort key of the persisted daily table:
`sort_values(["Date", "EmployeeID"], ascending=[False, True])` — date
descending then employee id ascending, both as Python strings. -/
def histSortLE (a b : Stage3Row) : Bool :=
  strLtB b.date a.date || (a.date = b.date && strLeB a.employeeID b.employeeID)

/-- The merge step of `run_full_upload`: delete existing rows whose date
occurs among the new rows' dates, append the new rows, and sort (the
source skips the sort when the combined table is empty, which sorts to
the same empty table). -/
def merge_daily (existing new : List Stage3Row) : List Stage3Row :=
  let combined :=
    if ¬ existing.isEmpty ∧ ¬ new.isEmpty then
      existing.filter (fun r => r.date ∉ dates_to_replace new) ++ new
    else if ¬ new.isEmpty then new
    else existing
  combined.insertionSort (fun a b => histSortLE a b = true)

/-! ## Stage 4 — multi-period aggregation
(`stage4_aggregated` of efficiency_processing.py) -/

/-- One historical daily row as Stage 4 consumes it: the `Date` column is
converted by `pd.to_datetime`, modelled as the rata-die number; only the
columns Stage 4 reads are kept. -/
structure Stage4Row where
  mtName : String
  team : String
  trainingPlan : Int
  date : Int
  efficiency : ℚ
deriving DecidableEq

/-- `_eff_for_period(df, name, start, end)`: mean of the nonzero
efficiencies of the employee's rows inside the closed date range; NaN
(no qualifying rows) is modelled as `none`. -/
def eff_for_period (df : List Stage4Row) (name : String) (start_d end_d : Int) : Option ℚ :=
  let rows := df.filter (fun r => r.mtName = name ∧ start_d ≤ r.date ∧ r.date ≤ end_d)
  let non_zero := rows.filter (fun r => r.efficiency ≠ 0)
  if non_zero.isEmpty then none
  else some (((non_zero.map (fun r => r.efficiency)).sum) / (non_zero.length : ℚ))

/-- Label of the `N`-business-days-ago single-day metric. -/
def day_label (n : Nat) : String := "Efficiency_" ++ toString n ++ "_Day_Ago"

/-- Label of the `m`-months-ago metric. -/
def month_label (m : Nat) : String :=
  if m = 1 then "Efficiency_Previous_Month"
  else "Efficiency_" ++ toString m ++ "_Months_Ago"

/-- The month window `m` months before the reference: first day of that
month through its last day, with Python's floor `//` and nonnegative `%`
on the month arithmetic and December→January rollover for the month end. -/
def month_period (reference : Date) (m : Nat) : Int × Int :=
  let month_ref := reference.month - (m : Int)
  let year_ref := reference.year + (month_ref - 1) / 12
  let month_ref2 := ((month_ref - 1) % 12) + 1
  let month_start := daysFromCivil year_ref month_ref2 1
  let month_end :=
    if month_ref2 = 12 then daysFromCivil (year_ref + 1) 1 1 - 1
    else daysFromCivil year_ref (month_ref2 + 1) 1 - 1
  (month_start, month_end)

/-- The 15 labelled period windows of Stage 4, in source order: single
business days 1–5 back, trailing calendar week, month-to-date, then the
12 trailing calendar months. -/
def stage4_periods (hol : List Int) (reference : Date) : List (String × Int × Int) :=
  ((List.range' 1 5).map (fun n =>
    let day := get_business_days_ago hol n (toRD reference)
    (day_label n, day, day)))
  ++ [("Efficiency_Last_Week_Average", toRD reference - 7, toRD reference - 1)]
  ++ [("Efficiency_Month_To_Date",
        daysFromCivil reference.year reference.month 1, toRD reference)]
  ++ ((List.range' 1 12).map (fun m =>
    (month_label m, (month_period reference m).1, (month_period reference m).2)))

/-- The metric column labels (independent of holiday set and reference). -/
def stage4_labels : List String :=
  (List.range' 1 5).map day_label
  ++ ["Efficiency_Last_Week_Average", "Efficiency_Month_To_Date"]
  ++ (List.range' 1 12).map month_label

/-- Step 4b: distinct employees by display name; pandas `groupby` sorts the
(object dtype) keys with Python string comparison. -/
def stage4_names (df : List Stage4Row) : List String :=
  (dedupKeepFirst (df.map (fun r => r.mtName))).insertionSort
    (fun a b => strLeB a b = true)

/-- Step 4b: `groupby("MT Name")["Team"].first()` — the team of the
employee's first row in frame order. -/
def first_team (df : List Stage4Row) (name : String) : String :=
  ((df.find? (fun r => r.mtName = name)).map (fun r => r.team)).getD ""

/-- Step 4e: `df["Date"].max()` (the frame is nonempty when used). -/
def stage4_max_date (df : List Stage4Row) : Int :=
  match df.map (fun r => r.date) with
  | [] => 0
  | d :: ds => ds.foldl max d

/-- Step 4e: the training plan attached to a name — first row of the
most recent date bearing that name (`drop_duplicates("MT Name")` keeps the
first), defaulting to 0 for employees absent on that date
(`merge(how="left")` then `fillna(0)`). -/
def stage4_training_plan (df : List Stage4Row) (name : String) : Int :=
  match (df.filter (fun r => r.date = stage4_max_date df)).find?
      (fun r => r.mtName = name) with
  | some r => r.trainingPlan
  | none => 0

/-- One pre-output row: employee, team, training plan and the 19 metric
values after step 4f's percent→fraction conversion
(`(col * 0.01).round(2)`, leaving NaN as NaN). -/
structure Stage4Pre where
  mtName : String
  team : String
  trainingPlan : Int
  vals : List (Option ℚ)
deriving DecidableEq, Inhabited

/-- Steps 4b–4f combined, before the per-column NaN handling. -/
def stage4_pre (hol : List Int) (df : List Stage4Row) (reference : Date) : List Stage4Pre :=
  (stage4_names df).map (fun n =>
    { mtName := n
      team := first_team df n
      trainingPlan := stage4_training_plan df n
      vals := (stage4_periods hol reference).map
        (fun p => (eff_for_period df n p.2.1 p.2.2).map (fun q => round2 (q / 100))) })

/-- A cell of the aggregated table: a float, or the per-cell
not-applicable marker "x". -/
inductive Cell where
  | val : ℚ → Cell
  | x : Cell
deriving DecidableEq

/-- Step 4g on one column: an all-NaN column becomes the numeric-0
sentinel wholesale; otherwise NaN cells become the "x" marker. -/
def col_cells (vals : List (Option ℚ)) : List Cell :=
  if vals.all (fun v => v.isNone) then vals.map (fun _ => Cell.val 0)
  else vals.map (fun v => match v with
    | some q => Cell.val q
    | none => Cell.x)

/-- Column `j` of the aggregated table, one cell per employee. -/
def stage4_col (pre : List Stage4Pre) (j : Nat) : List Cell :=
  col_cells (pre.map (fun p => p.vals.getD j none))

/-- Step 4g's column drop: a column survives unless every cell equals the
numeric 0 (`(result[c] == 0).all()`; the "x" marker never equals 0). -/
def stage4_keep (pre : List Stage4Pre) (j : Nat) : Bool :=
  ¬ ((stage4_col pre j).all (fun c => c = Cell.val 0))

/-- One row of the aggregated output: identity columns plus the surviving
labelled metric cells. -/
structure AggRow where
  mtName : String
  team : String
  trainingPlan : Int
  metrics : List (String × Cell)
deriving DecidableEq, Inhabited

/-- `stage4_aggregated(all_daily_df, reference)`: empty input
short-circuits to the empty frame; otherwise assemble the per-employee
rows, keeping only the columns that survive the drop of step 4g. -/
def stage4_aggregated (hol : List Int) (df : List Stage4Row) (reference : Date) : List AggRow :=
  if df.isEmpty then []
  else
    let pre := stage4_pre hol df reference
    pre.enum.map (fun ip =>
      { mtName := ip.2.mtName
        team := ip.2.team
        trainingPlan := ip.2.trainingPlan
        metrics := stage4_labels.enum.filterMap (fun jl =>
          if stage4_keep pre jl.1 then
            some (jl.2, (stage4_col pre jl.1).getD ip.1 (Cell.val 0))
          else none) })

/-! ## Concrete sample rows (inputs of witnesses and counterexamples) -/

/-- Sample Gusto-side row with zero worked hours. -/
def g6 : GustoRow :=
  { date := "2025-01-06", employeeID := "7", gustoName := "G Seven",
    mtName := "M Seven", team := "Design", trainingPlan := 0, workHours := 0 }

/-- Sample Stage-1 aggregate row for the same employee. -/
def t6 : Stage1Row :=
  { employeeID := "7", cases_worked_on := 3, tasks_completed := 5,
    tasks_duration_hours := 12 }

/-- Sample historical daily row. -/
def hist1 : Stage3Row :=
  { date := "2025-01-06", employeeID := "7", gustoName := "G", mtName := "M",
    team := "T", trainingPlan := 0, workHours := 8, cases_worked_on := 1,
    tasks_completed := 1, tasks_duration_hours := 2, efficiency := 25 }

/-- Second pay period for the same employee. -/
def hist2 : Stage3Row := { hist1 with date := "2025-01-13" }

/-- New upload row overlapping `hist1`'s date with another employee. -/
def histNew1 : Stage3Row := { hist1 with employeeID := "9" }

/-- New upload row with a fresh date. -/
def histNew2 : Stage3Row := { hist1 with date := "2025-01-20" }

/-- Raw task row: a completed task. -/
def r5a : RawTaskRow :=
  { employeeID := 7, caseNumber := 100, completeDate := 5, task := "Design",
    rejected := some 0, duration := some 2 }

/-- Raw task row: the rejection-flagged duplicate of `r5a` (same natural key). -/
def r5b : RawTaskRow :=
  { employeeID := 7, caseNumber := 100, completeDate := 5, task := "Design",
    rejected := some 1, duration := some 2 }

/-- Raw task row of another employee, not rejected. -/
def r5c : RawTaskRow :=
  { employeeID := 8, caseNumber := 200, completeDate := 5, task := "Polish",
    rejected := none, duration := some 3 }

/-- The reference date used by the Stage-4 examples (a Wednesday). -/
def refJan8 : Date := ⟨2025, 1, 8⟩

/-- Stage-4 history row: employee A worked far outside every period. -/
def w4A : Stage4Row :=
  { mtName := "A", team := "T", trainingPlan := 0, date := 300, efficiency := 7 }

/-- Stage-4 history row: employee B worked on 2025-01-07 (rata die 20095),
one business day before `refJan8`. -/
def w4B : Stage4Row :=
  { mtName := "B", team := "T", trainingPlan := 0, date := 20095, efficiency := 100 }

/-- Stage-4 history row: a single employee with a tiny nonzero efficiency
(0.2 percent) on 2025-01-07. -/
def c4A : Stage4Row :=
  { mtName := "A", team := "T", trainingPlan := 0, date := 20095, efficiency := 1/5 }

/-- Stage-4 history row: employee A present on the latest date (200). -/
def z4A : Stage4Row :=
  { mtName := "A", team := "T", trainingPlan := 0, date := 200, efficiency := 0 }

/-- Stage-4 history row: employee B only on an earlier date (100), carrying
training-plan flag 1. -/
def z4B : Stage4Row :=
  { mtName := "B", team := "T", trainingPlan := 1, date := 100, efficiency := 0 }

/-! ## Theorems

### Business-day search lemmas -/

theorem searchFrom_spec (p : Int → Bool) :
    ∀ (n : Nat) (c : Int), (∃ k : Nat, k < n ∧ p (c + k) = true) →
      p (searchFrom p n c) = true ∧ c ≤ searchFrom p n c ∧
      ∀ x : Int, c ≤ x → x < searchFrom p n c → p x = false := by
  intro n
  induction n with
  | zero => intro c h; obtain ⟨k, hk, _⟩ := h; omega
  | succ n ih =>
    intro c h
    cases hpc : p c with
    | true =>
      refine ⟨by simp [searchFrom, hpc], by simp [searchFrom, hpc], ?_⟩
      intro x hx1 hx2
      simp [searchFrom, hpc] at hx2
      omega
    | false =>
      obtain ⟨k, hk, hpk⟩ := h
      have hk0 : k ≠ 0 := by
        intro h0
        rw [h0] at hpk
        simp at hpk
        rw [hpk] at hpc
        exact Bool.noConfusion hpc
      obtain ⟨k', rfl⟩ : ∃ k', k = k' + 1 := ⟨k - 1, by omega⟩
      have hex : ∃ k2 : Nat, k2 < n ∧ p (c + 1 + k2) = true := by
        refine ⟨k', by omega, ?_⟩
        have : c + 1 + (k' : Int) = c + ((k' + 1 : Nat) : Int) := by push_cast; ring
        rw [this]
        exact hpk
      obtain ⟨h1, h2, h3⟩ := ih (c + 1) hex
      have hres : searchFrom p (n + 1) c = searchFrom p n (c + 1) := by
        simp [searchFrom, hpc]
      refine ⟨by rw [hres]; exact h1, by rw [hres]; omega, ?_⟩
      intro x hx1 hx2
      rw [hres] at hx2
      rcases eq_or_lt_of_le hx1 with heq | hlt
      · rw [← heq]; exact hpc
      · exact h3 x (by omega) hx2

theorem searchBack_spec (p : Int → Bool) :
    ∀ (n : Nat) (c : Int), (∃ k : Nat, k < n ∧ p (c - k) = true) →
      p (searchBack p n c) = true ∧ searchBack p n c ≤ c ∧
      ∀ x : Int, x ≤ c → searchBack p n c < x → p x = false := by
  intro n
  induction n with
  | zero => intro c h; obtain ⟨k, hk, _⟩ := h; omega
  | succ n ih =>
    intro c h
    cases hpc : p c with
    | true =>
      refine ⟨by simp [searchBack, hpc], by simp [searchBack, hpc], ?_⟩
      intro x hx1 hx2
      simp [searchBack, hpc] at hx2
      omega
    | false =>
      obtain ⟨k, hk, hpk⟩ := h
      have hk0 : k ≠ 0 := by
        intro h0
        rw [h0] at hpk
        simp at hpk
        rw [hpk] at hpc
        exact Bool.noConfusion hpc
      obtain ⟨k', rfl⟩ : ∃ k', k = k' + 1 := ⟨k - 1, by omega⟩
      have hex : ∃ k2 : Nat, k2 < n ∧ p (c - 1 - k2) = true := by
        refine ⟨k', by omega, ?_⟩
        have : c - 1 - (k' : Int) = c - ((k' + 1 : Nat) : Int) := by push_cast; ring
        rw [this]
        exact hpk
      obtain ⟨h1, h2, h3⟩ := ih (c - 1) hex
      have hres : searchBack p (n + 1) c = searchBack p n (c - 1) := by
        simp [searchBack, hpc]
      refine ⟨by rw [hres]; exact h1, by rw [hres]; omega, ?_⟩
      intro x hx1 hx2
      rw [hres] at hx2
      rcases eq_or_lt_of_le hx1 with heq | hlt
      · rw [heq]; exact hpc
      · exact h3 x (by omega) hx2

theorem le_foldl_max (l : List Int) (a : Int) : a ≤ l.foldl max a := by
  induction l generalizing a with
  | nil => exact le_refl a
  | cons b l ih => exact le_trans (le_max_left a b) (ih (max a b))

theorem mem_le_foldl_max (l : List Int) (a x : Int) (hx : x ∈ l) : x ≤ l.foldl max a := by
  induction l generalizing a with
  | nil => cases hx
  | cons b l ih =>
    rcases List.mem_cons.mp hx with rfl | hx'
    · exact le_trans (le_max_right a x) (le_foldl_max l (max a x))
    · exact ih (max a b) hx'

theorem foldl_min_le (l : List Int) (a : Int) : l.foldl min a ≤ a := by
  induction l generalizing a with
  | nil => exact le_refl a
  | cons b l ih => exact le_trans (ih (min a b)) (min_le_left a b)

theorem foldl_min_le_mem (l : List Int) (a x : Int) (hx : x ∈ l) : l.foldl min a ≤ x := by
  induction l generalizing a with
  | nil => cases hx
  | cons b l ih =>
    rcases List.mem_cons.mp hx with rfl | hx'
    · exact le_trans (foldl_min_le l (min a x)) (min_le_right a x)
    · exact ih (min a b) hx'

theorem next_business_exists (hol : List Int) (d : Int) :
    ∃ k : Nat, k < nextSearchLen hol d ∧ isBusinessDay hol (d + 1 + k) = true := by
  have hdM : d ≤ hol.foldl max d := le_foldl_max hol d
  set M := hol.foldl max d with hM
  have hjval : ((M - d).toNat : Int) = M - d := Int.toNat_of_nonneg (by omega)
  set t : Int := (4 - (d + 1 + (M - d))) % 7 with ht
  have ht0 : 0 ≤ t := Int.emod_nonneg _ (by norm_num)
  have ht6 : t < 7 := Int.emod_lt_of_pos _ (by norm_num)
  refine ⟨(M - d).toNat + t.toNat, ?_, ?_⟩
  · simp only [nextSearchLen, holidayUpperBound, ← hM]
    omega
  · rw [isBusinessDay]
    apply decide_eq_true
    have hcast : (((M - d).toNat + t.toNat : Nat) : Int) = (M - d) + t := by
      push_cast
      omega
    constructor
    · rw [hcast]
      omega
    · rw [hcast]
      intro hmem
      have := mem_le_foldl_max hol d _ hmem
      rw [← hM] at this
      omega

theorem prev_business_exists (hol : List Int) (d : Int) :
    ∃ k : Nat, k < prevSearchLen hol d ∧ isBusinessDay hol (d - 1 - k) = true := by
  have hdM : hol.foldl min d ≤ d := foldl_min_le hol d
  set M := hol.foldl min d with hM
  set t : Int := ((d - 1 - (d - M)) - 4) % 7 with ht
  have ht0 : 0 ≤ t := Int.emod_nonneg _ (by norm_num)
  have ht6 : t < 7 := Int.emod_lt_of_pos _ (by norm_num)
  refine ⟨(d - M).toNat + t.toNat, ?_, ?_⟩
  · simp only [prevSearchLen, holidayLowerBound, ← hM]
    omega
  · rw [isBusinessDay]
    apply decide_eq_true
    have hcast : (((d - M).toNat + t.toNat : Nat) : Int) = (d - M) + t := by
      push_cast
      omega
    constructor
    · rw [hcast]
      omega
    · rw [hcast]
      intro hmem
      have := foldl_min_le_mem hol d _ hmem
      rw [← hM] at this
      omega

theorem next_business_day_spec (hol : List Int) (d : Int) :
    d < next_business_day hol d ∧ isBusinessDay hol (next_business_day hol d) = true ∧
    ∀ x : Int, d < x → x < next_business_day hol d → isBusinessDay hol x = false := by
  obtain ⟨h1, h2, h3⟩ :=
    searchFrom_spec (isBusinessDay hol) (nextSearchLen hol d) (d + 1)
      (next_business_exists hol d)
  exact ⟨by unfold next_business_day; omega, h1,
    fun x hx1 hx2 => h3 x (by omega) hx2⟩

theorem prev_business_day_spec (hol : List Int) (d : Int) :
    prev_business_day hol d < d ∧ isBusinessDay hol (prev_business_day hol d) = true ∧
    ∀ x : Int, x < d → prev_business_day hol d < x → isBusinessDay hol x = false := by
  obtain ⟨h1, h2, h3⟩ :=
    searchBack_spec (isBusinessDay hol) (prevSearchLen hol d) (d - 1)
      (prev_business_exists hol d)
  exact ⟨by unfold prev_business_day; omega, h1,
    fun x hx1 hx2 => h3 x (by omega) hx2⟩

theorem prev_business_day_mono (hol : List Int) {a b : Int} (hab : a ≤ b) :
    prev_business_day hol a ≤ prev_business_day hol b := by
  by_contra h
  push_neg at h
  obtain ⟨ha1, ha2, _⟩ := prev_business_day_spec hol a
  obtain ⟨_, _, hb3⟩ := prev_business_day_spec hol b
  have := hb3 (prev_business_day hol a) (by omega) h
  rw [ha2] at this
  exact Bool.noConfusion this

theorem prev_next_business_le (hol : List Int) (d : Int) :
    prev_business_day hol (next_business_day hol d) ≤ d := by
  by_contra h
  push_neg at h
  obtain ⟨hn1, _, hn3⟩ := next_business_day_spec hol d
  obtain ⟨hp1, hp2, _⟩ := prev_business_day_spec hol (next_business_day hol d)
  have := hn3 (prev_business_day hol (next_business_day hol d)) h hp1
  rw [hp2] at this
  exact Bool.noConfusion this

theorem prev_next_business_iter_le (hol : List Int) (k : Nat) (d : Int) :
    (prev_business_day hol)^[k] ((next_business_day hol)^[k] d) ≤ d := by
  induction k generalizing d with
  | zero => simp
  | succ k ih =>
    rw [show (next_business_day hol)^[k + 1] d =
          (next_business_day hol)^[k] (next_business_day hol d) from
        Function.iterate_succ_apply _ _ _,
      Function.iterate_succ_apply']
    exact le_trans (prev_business_day_mono hol (ih (next_business_day hol d)))
      (prev_next_business_le hol d)

/-- C8: for every date `d` (and every ambient holiday set), taking the 5th
business day after `d` with `next_x_business_days` and then stepping back
5 business days with `_get_business_days_ago` lands on a business day
that is less than or equal to `d`. -/
theorem C8_business_day_roundtrip (hol : List Int) (d : Int) :
    get_business_days_ago hol 5 (next_x_business_days hol d 5) ≤ d ∧
    isBusinessDay hol (get_business_days_ago hol 5 (next_x_business_days hol d 5)) = true := by
  have heq : get_business_days_ago hol 5 (next_x_business_days hol d 5) =
      (prev_business_day hol)^[5] ((next_business_day hol)^[5] d) := by
    simp [get_business_days_ago, next_x_business_days]
  constructor
  · rw [heq]
    exact prev_next_business_iter_le hol 5 d
  · rw [heq, show (5 : Nat) = 4 + 1 from rfl, Function.iterate_succ_apply']
    exact (prev_business_day_spec hol _).2.1

/-! ### The holiday calendar (C1) -/

theorem daysFromCivil_day_sub (y m d k : Int) :
    daysFromCivil y m (d - k) = daysFromCivil y m d - k := by
  simp only [daysFromCivil]
  split_ifs <;> omega

theorem memorial_day_weekday (y : Int) : pyWeekday (memorial_day y) = 6 := by
  have h := daysFromCivil_day_sub y 5 31 (((daysFromCivil y 5 31 + 3) % 7 + 1) % 7)
  simp only [memorial_day, pyWeekday, toRD] at *
  rw [h]
  generalize daysFromCivil y 5 31 = r
  omega

/-- C1: the claim requires every computed holiday to satisfy its stated
rule, in particular that the May entry is Memorial Day, the last Monday of
May. The code instead always produces the last Sunday of May (its
`days_back_to_monday` is off by one): for every year the May entry's
weekday is Sunday (6), and concretely for 2025 the set contains
2025-05-25 (a Sunday) and not 2025-05-26, the actual last Monday of May
(it is a Monday and no later May day is one). -/
theorem C1_memorial_day_code_bug :
    (∀ y : Int, pyWeekday (memorial_day y) = 6) ∧
    memorial_day 2025 = ⟨2025, 5, 25⟩ ∧
    pyWeekday ⟨2025, 5, 25⟩ = 6 ∧
    pyWeekday ⟨2025, 5, 26⟩ = 0 ∧
    (∀ dd : Int, 26 < dd → dd ≤ 31 → pyWeekday ⟨2025, 5, dd⟩ ≠ 0) ∧
    memorial_day 2025 ∈ get_company_holidays 2025 ∧
    (⟨2025, 5, 26⟩ : Date) ∉ get_company_holidays 2025 := by
  refine ⟨memorial_day_weekday, by decide, by decide, by decide, ?_, by decide, by decide⟩
  intro dd h1 h2
  interval_cases dd <;> decide

/-! ### Empty inputs across the pipeline (C10) -/

/-- C10: each pipeline stage maps an empty input to an empty output of the
correct shape (in this list-of-records model the shape is the row type),
rather than failing: Stage 1 on an empty frame, Stage 3 with either side
empty, Stage 4 on an empty history, and the composition in which Stage 1
produces zero rows all yield empty outputs. -/
theorem C10_empty_pipeline (s e : ℚ) (g : List GustoRow) (t : List Stage1Row)
    (hol : List Int) (ref : Date) :
    stage1_task_processing [] s e = [] ∧
    stage3_combine t [] = [] ∧
    stage3_combine [] g = [] ∧
    stage4_aggregated hol [] ref = [] ∧
    stage3_combine (stage1_task_processing [] s e) g = [] := by
  refine ⟨rfl, rfl, ?_, rfl, ?_⟩
  · simp [stage3_combine]
  · simp [stage1_task_processing, stage3_combine]

/-! ### Stage 3 efficiency (C6) -/

/-- C6: every joined row of `stage3_combine` arises from a Gusto row and a
task row with equal employee ids; when the worked hours are 0 the computed
efficiency is exactly 0 (the `replace(0, nan)`/`fillna(0)` path), otherwise
it is `(task-duration / worked-hours) × 100` rounded to 2 decimals; and the
output worked hours are rounded to 2 decimals. -/
theorem C6_stage3_zero_safe_efficiency (task_df : List Stage1Row) (gusto_df : List GustoRow)
    (g : GustoRow) (t : Stage1Row) (hg : g ∈ gusto_df) (ht : t ∈ task_df)
    (hid : t.employeeID = g.employeeID) :
    stage3_row g t ∈ stage3_combine task_df gusto_df ∧
    (g.workHours = 0 → (stage3_row g t).efficiency = 0) ∧
    (g.workHours ≠ 0 →
      (stage3_row g t).efficiency = round2 (t.tasks_duration_hours / g.workHours * 100)) ∧
    (stage3_row g t).workHours = round2 g.workHours ∧
    ∀ r ∈ stage3_combine task_df gusto_df, ∃ g' ∈ gusto_df, ∃ t' ∈ task_df,
      t'.employeeID = g'.employeeID ∧ r = stage3_row g' t' := by
  refine ⟨?_, ?_, ?_, rfl, ?_⟩
  · exact List.mem_flatMap.mpr
      ⟨g, hg, List.mem_map.mpr ⟨t, List.mem_filter.mpr ⟨ht, by simpa using hid⟩, rfl⟩⟩
  · intro h
    simp [stage3_row, h]
  · intro h
    simp [stage3_row, h]
  · intro r hr
    obtain ⟨g', hg', hr'⟩ := List.mem_flatMap.mp hr
    obtain ⟨t', ht', rfl⟩ := List.mem_map.mp hr'
    obtain ⟨ht'm, hidB⟩ := List.mem_filter.mp ht'
    exact ⟨g', hg', t', ht'm, by simpa using hidB, rfl⟩

/-- Witness for C6 at a concrete zero-worked-hours upload row. -/
theorem C6_stage3_zero_safe_efficiency_witness :
    g6 ∈ [g6] ∧ t6 ∈ [t6] ∧ t6.employeeID = g6.employeeID ∧
    stage3_row g6 t6 ∈ stage3_combine [t6] [g6] ∧
    (stage3_row g6 t6).efficiency = 0 := by
  refine ⟨by simp, by simp, rfl, ?_, ?_⟩
  · exact (C6_stage3_zero_safe_efficiency [t6] [g6] g6 t6 (by simp) (by simp) rfl).1
  · exact (C6_stage3_zero_safe_efficiency [t6] [g6] g6 t6 (by simp) (by simp) rfl).2.1 rfl

/-! ### Year resolution (C3) -/

theorem pickMinFirst_eq_none {l : List (Date × Int)} :
    pickMinFirst l = none ↔ l = [] := by
  cases l with
  | nil => simp [pickMinFirst]
  | cons x xs =>
    simp only [pickMinFirst]
    cases pickMinFirst xs <;> simp

theorem pickMinFirst_mem {l : List (Date × Int)} {r : Date × Int}
    (h : pickMinFirst l = some r) : r ∈ l := by
  induction l generalizing r with
  | nil => cases h
  | cons x xs ih =>
    simp only [pickMinFirst] at h
    cases hpm : pickMinFirst xs with
    | none =>
      rw [hpm] at h
      injection h with h'
      exact h' ▸ List.mem_cons_self x xs
    | some y =>
      rw [hpm] at h
      injection h with h'
      by_cases hlt : y.2 < x.2
      · rw [if_pos hlt] at h'
        rw [h'] at hpm
        exact List.mem_cons_of_mem x (ih hpm)
      · rw [if_neg hlt] at h'
        exact h' ▸ List.mem_cons_self x xs

theorem pickMinFirst_le {l : List (Date × Int)} {r : Date × Int}
    (h : pickMinFirst l = some r) : ∀ c ∈ l, r.2 ≤ c.2 := by
  induction l generalizing r with
  | nil => cases h
  | cons x xs ih =>
    simp only [pickMinFirst] at h
    intro c hc
    cases hpm : pickMinFirst xs with
    | none =>
      have hnil := pickMinFirst_eq_none.mp hpm
      rw [hpm] at h
      injection h with h'
      subst hnil
      rcases List.mem_cons.mp hc with rfl | hcs
      · rw [← h']
      · cases hcs
    | some y =>
      rw [hpm] at h
      injection h with h'
      by_cases hlt : y.2 < x.2
      · rw [if_pos hlt] at h'
        rw [h'] at hpm hlt
        rcases List.mem_cons.mp hc with rfl | hcs
        · omega
        · exact ih hpm c hcs
      · rw [if_neg hlt] at h'
        push_neg at hlt
        rcases List.mem_cons.mp hc with rfl | hcs
        · rw [← h']
        · have hy := ih hpm c hcs
          rw [← h']
          omega

theorem pickMinFirst_tie {l : List (Date × Int)} {r c : Date × Int}
    (hp : l.Pairwise (fun a b => a.1.year < b.1.year))
    (h : pickMinFirst l = some r) (hc : c ∈ l) (hs : c.2 = r.2) :
    r.1.year ≤ c.1.year := by
  induction l generalizing r with
  | nil => cases hc
  | cons x xs ih =>
    obtain ⟨hx, hxs⟩ := List.pairwise_cons.mp hp
    simp only [pickMinFirst] at h
    cases hpm : pickMinFirst xs with
    | none =>
      have hnil := pickMinFirst_eq_none.mp hpm
      rw [hpm] at h
      injection h with h'
      subst hnil
      rcases List.mem_cons.mp hc with rfl | hcs
      · exact h' ▸ le_refl _
      · cases hcs
    | some y =>
      rw [hpm] at h
      injection h with h'
      by_cases hlt : y.2 < x.2
      · rw [if_pos hlt] at h'
        rw [h'] at hpm hlt
        rcases List.mem_cons.mp hc with rfl | hcs
        · omega
        · exact ih hxs hpm hcs hs
      · rw [if_neg hlt] at h'
        subst h'
        rcases List.mem_cons.mp hc with rfl | hcs
        · exact le_refl _
        · exact le_of_lt (hx c hcs)

theorem year_candidates_pairwise (m d : Int) (ref : Date) :
    (year_candidates m d ref).Pairwise (fun a b => a.year < b.year) := by
  unfold year_candidates
  rw [List.pairwise_filterMap]
  have key : ∀ y1 y2 : Int, y1 < y2 →
      ∀ b ∈ (if isValidDate ⟨y1, m, d⟩ = true then some (⟨y1, m, d⟩ : Date) else none),
      ∀ b' ∈ (if isValidDate ⟨y2, m, d⟩ = true then some (⟨y2, m, d⟩ : Date) else none),
        b.year < b'.year := by
    intro y1 y2 hy b hb b' hb'
    split_ifs at hb hb' <;>
      simp only [Option.mem_def, Option.some.injEq] at hb hb'
    · subst hb
      subst hb'
      exact hy
    · exact Option.noConfusion hb'
    · exact Option.noConfusion hb
    · exact Option.noConfusion hb
  refine List.pairwise_cons.mpr ⟨?_, List.pairwise_cons.mpr ⟨?_,
    List.pairwise_cons.mpr ⟨?_, List.Pairwise.nil⟩⟩⟩
  · intro y2 hy2
    rcases List.mem_cons.mp hy2 with rfl | hy2'
    · exact key _ _ (by omega)
    · rcases List.mem_cons.mp hy2' with rfl | hy2''
      · exact key _ _ (by omega)
      · cases hy2''
  · intro y2 hy2
    rcases List.mem_cons.mp hy2 with rfl | hy2'
    · exact key _ _ (by omega)
    · cases hy2'
  · intro y2 hy2
    cases hy2

theorem scored_pairwise (m d : Int) (ref : Date) :
    ((year_candidates m d ref).filterMap
      (fun c => (score_candidate ref c).map (fun s => (c, s)))).Pairwise
      (fun a b => a.1.year < b.1.year) := by
  rw [List.pairwise_filterMap]
  refine (year_candidates_pairwise m d ref).imp ?_
  intro a b hab p hp q hq
  rw [Option.mem_def] at hp hq
  obtain ⟨s1, _, rfl⟩ := Option.map_eq_some'.mp hp
  obtain ⟨s2, _, rfl⟩ := Option.map_eq_some'.mp hq
  exact hab

/-- C3: whenever `_resolve_year` returns a date, that date is one of the
(valid) candidates from the reference's previous/current/next year, it has
a finite score (inside the 180-days-future / 365-days-past window), its
score is minimal among all finitely scored candidates, and on score ties
it has the smallest year (the prev/current/next evaluation order breaks
ties); when it returns nothing, every candidate was discarded. In
particular the fragment "(AFU) 12/15" read with reference 2025-01-10
resolves to 2024-12-15. -/
theorem C3_resolve_year_minimality :
    (∀ (m d : Int) (ref r : Date), resolve_year m d ref = some r →
      r ∈ year_candidates m d ref ∧
      ∃ s : Int, score_candidate ref r = some s ∧
        (∀ c ∈ year_candidates m d ref, ∀ s' : Int,
          score_candidate ref c = some s' → s ≤ s') ∧
        (∀ c ∈ year_candidates m d ref,
          score_candidate ref c = some s → r.year ≤ c.year)) ∧
    (∀ (m d : Int) (ref : Date), resolve_year m d ref = none →
      ∀ c ∈ year_candidates m d ref, score_candidate ref c = none) ∧
    extract_follow_up_date ("(AFU) 12/15".data) ⟨2025, 1, 10⟩ = some ⟨2024, 12, 15⟩ ∧
    resolve_year 12 15 ⟨2025, 1, 10⟩ = some ⟨2024, 12, 15⟩ := by
  refine ⟨?_, ?_, by decide, by decide⟩
  · intro m d ref r h
    unfold resolve_year at h
    obtain ⟨p, hp, hp1⟩ := Option.map_eq_some'.mp h
    obtain ⟨c, hc, hcp⟩ := List.mem_filterMap.mp (pickMinFirst_mem hp)
    obtain ⟨s, hs, hps⟩ := Option.map_eq_some'.mp hcp
    have hrc : r = c := by rw [← hp1, ← hps]
    subst hrc
    refine ⟨hc, s, hs, ?_, ?_⟩
    · intro c' hc' s' hs'
      have hmem1 : (c', s') ∈ (year_candidates m d ref).filterMap
          (fun c => (score_candidate ref c).map (fun s => (c, s))) :=
        List.mem_filterMap.mpr ⟨c', hc', by rw [hs']; rfl⟩
      have hle1 := pickMinFirst_le hp (c', s') hmem1
      rw [← hps] at hle1
      exact hle1
    · intro c' hc' hs'
      have hmem2 : (c', s) ∈ (year_candidates m d ref).filterMap
          (fun c => (score_candidate ref c).map (fun s => (c, s))) :=
        List.mem_filterMap.mpr ⟨c', hc', by rw [hs']; rfl⟩
      have htie := pickMinFirst_tie (scored_pairwise m d ref) hp hmem2 (by rw [← hps])
      rw [← hps] at htie
      exact htie
  · intro m d ref h c hc
    unfold resolve_year at h
    have hpm := Option.map_eq_none'.mp h
    have hnil := pickMinFirst_eq_none.mp hpm
    by_contra hne
    obtain ⟨s, hs⟩ := Option.ne_none_iff_exists'.mp hne
    have : (c, s) ∈ ((year_candidates m d ref).filterMap
        (fun c => (score_candidate ref c).map (fun s => (c, s)))) :=
      List.mem_filterMap.mpr ⟨c, hc, by rw [hs]; rfl⟩
    rw [hnil] at this
    cases this

/-- Witness for C3 at the concrete fragment 12/15 with reference
2025-01-10. -/
theorem C3_resolve_year_minimality_witness :
    resolve_year 12 15 ⟨2025, 1, 10⟩ = some ⟨2024, 12, 15⟩ ∧
    ((⟨2024, 12, 15⟩ : Date) ∈ year_candidates 12 15 ⟨2025, 1, 10⟩ ∧
      ∃ s : Int, score_candidate ⟨2025, 1, 10⟩ ⟨2024, 12, 15⟩ = some s ∧
        (∀ c ∈ year_candidates 12 15 ⟨2025, 1, 10⟩, ∀ s' : Int,
          score_candidate ⟨2025, 1, 10⟩ c = some s' → s ≤ s') ∧
        (∀ c ∈ year_candidates 12 15 ⟨2025, 1, 10⟩,
          score_candidate ⟨2025, 1, 10⟩ c = some s →
            (⟨2024, 12, 15⟩ : Date).year ≤ c.year)) :=
  ⟨by decide,
   C3_resolve_year_minimality.1 12 15 ⟨2025, 1, 10⟩ ⟨2024, 12, 15⟩ (by decide)⟩

/-! ### Follow-up extraction (C9) -/

theorem foldl_maxDate_mem (ds : List Date) (a : Date) :
    ds.foldl (fun x b => if toRD x < toRD b then b else x) a ∈ a :: ds := by
  induction ds generalizing a with
  | nil => simp
  | cons b l ih =>
    simp only [List.foldl_cons]
    rcases List.mem_cons.mp (ih (if toRD a < toRD b then b else a)) with h | h
    · rw [h]
      split_ifs <;> simp
    · exact List.mem_cons_of_mem a (List.mem_cons_of_mem b h)

theorem foldl_maxDate_le (ds : List Date) (a : Date) :
    ∀ c ∈ a :: ds,
      toRD c ≤ toRD (ds.foldl (fun x b => if toRD x < toRD b then b else x) a) := by
  induction ds generalizing a with
  | nil =>
    intro c hc
    rcases List.mem_cons.mp hc with rfl | h
    · simp
    · cases h
  | cons b l ih =>
    intro c hc
    simp only [List.foldl_cons]
    have hstep1 : toRD a ≤ toRD (if toRD a < toRD b then b else a) := by
      split_ifs <;> omega
    have hstep2 : toRD b ≤ toRD (if toRD a < toRD b then b else a) := by
      split_ifs <;> omega
    rcases List.mem_cons.mp hc with rfl | h
    · exact le_trans hstep1
        (ih (if toRD c < toRD b then b else c) _ (List.mem_cons_self _ _))
    · rcases List.mem_cons.mp h with rfl | h2
      · exact le_trans hstep2
          (ih (if toRD a < toRD c then c else a) _ (List.mem_cons_self _ _))
      · exact ih (if toRD a < toRD b then b else a) c (List.mem_cons_of_mem _ h2)

/-- C9: `extract_follow_up_date` returns `none` exactly when no fragment
survives matching, range validation, and year resolution; when it returns
a date, that date is one of the resolved dates and is the latest of them.
Fragments with month outside 1–12 or day outside 1–31 are matched but
silently dropped ("(AFU) 13/10" and "(AFU) 1/32" both match yet yield
none); with both "(AFU) 1/2" and "(ZFU) 11/30" present the later
resolving date 2025-01-02 wins. -/
theorem C9_extract_most_recent :
    (∀ (text : List Char) (ref : Date),
      (extract_follow_up_date text ref = none ↔ resolved_dates text ref = [])) ∧
    (∀ (text : List Char) (ref : Date) (r : Date),
      extract_follow_up_date text ref = some r →
        r ∈ resolved_dates text ref ∧
        ∀ c ∈ resolved_dates text ref, toRD c ≤ toRD r) ∧
    findMatches ("(AFU) 13/10".data) = [(13, 10)] ∧
    extract_follow_up_date ("(AFU) 13/10".data) ⟨2025, 1, 10⟩ = none ∧
    findMatches ("(AFU) 1/32".data) = [(1, 32)] ∧
    extract_follow_up_date ("(AFU) 1/32".data) ⟨2025, 1, 10⟩ = none ∧
    resolved_dates ("(AFU) 1/2 and (ZFU) 11/30".data) ⟨2025, 1, 10⟩ =
      [⟨2025, 1, 2⟩, ⟨2024, 11, 30⟩] ∧
    extract_follow_up_date ("(AFU) 1/2 and (ZFU) 11/30".data) ⟨2025, 1, 10⟩ =
      some ⟨2025, 1, 2⟩ := by
  refine ⟨?_, ?_, by decide, by decide, by decide, by decide, by decide, by decide⟩
  · intro text ref
    unfold extract_follow_up_date
    cases h : resolved_dates text ref <;> simp
  · intro text ref r h
    unfold extract_follow_up_date at h
    cases hrd : resolved_dates text ref with
    | nil =>
      rw [hrd] at h
      cases h
    | cons d ds =>
      rw [hrd] at h
      injection h with h'
      constructor
      · rw [← h']
        exact foldl_maxDate_mem ds d
      · intro c hc
        rw [← h']
        exact foldl_maxDate_le ds d c hc

/-- Witness for C9 at the two-marker text. -/
theorem C9_extract_most_recent_witness :
    extract_follow_up_date ("(AFU) 1/2 and (ZFU) 11/30".data) ⟨2025, 1, 10⟩ =
      some ⟨2025, 1, 2⟩ ∧
    ((⟨2025, 1, 2⟩ : Date) ∈
        resolved_dates ("(AFU) 1/2 and (ZFU) 11/30".data) ⟨2025, 1, 10⟩ ∧
      ∀ c ∈ resolved_dates ("(AFU) 1/2 and (ZFU) 11/30".data) ⟨2025, 1, 10⟩,
        toRD c ≤ toRD ⟨2025, 1, 2⟩) :=
  ⟨by decide,
   C9_extract_most_recent.2.1 ("(AFU) 1/2 and (ZFU) 11/30".data) ⟨2025, 1, 10⟩
     ⟨2025, 1, 2⟩ (by decide)⟩

/-! ### Historical merge (C2) -/

theorem charToNat_inj {c d : Char} (h : c.toNat = d.toNat) : c = d :=
  Char.eq_of_val_eq (UInt32.ext h)

theorem listLtB_irrefl (l : List Char) : listLtB l l = false := by
  induction l with
  | nil => rfl
  | cons c cs ih => simp [listLtB, ih]

theorem listLtB_trans {a b c : List Char} (hab : listLtB a b = true)
    (hbc : listLtB b c = true) : listLtB a c = true := by
  induction a generalizing b c with
  | nil =>
    cases b with
    | nil => cases hab
    | cons y ys =>
      cases c with
      | nil => cases hbc
      | cons z zs => rfl
  | cons x xs ih =>
    cases b with
    | nil => cases hab
    | cons y ys =>
      cases c with
      | nil => cases hbc
      | cons z zs =>
        simp only [listLtB] at hab hbc ⊢
        split_ifs at hab hbc ⊢ <;> try omega
        all_goals try rfl
        exact ih hab hbc

theorem listLtB_connex {a b : List Char} (hab : listLtB a b = false)
    (hba : listLtB b a = false) : a = b := by
  induction a generalizing b with
  | nil =>
    cases b with
    | nil => rfl
    | cons y ys => cases hab
  | cons x xs ih =>
    cases b with
    | nil => cases hba
    | cons y ys =>
      simp only [listLtB] at hab hba
      split_ifs at hab hba <;> try omega
      have hxy : x = y := charToNat_inj (by omega)
      subst hxy
      rw [ih hab hba]

theorem listLtB_asymm {a b : List Char} (hab : listLtB a b = true)
    (hba : listLtB b a = true) : False := by
  have := listLtB_trans hab hba
  rw [listLtB_irrefl] at this
  cases this

theorem strLtB_connex {a b : String} (hab : strLtB a b = false)
    (hba : strLtB b a = false) : a = b := by
  have h := listLtB_connex hab hba
  cases a
  cases b
  simp_all

/-- Totality of the persisted-table sort order. -/
theorem histSortLE_total (a b : Stage3Row) :
    histSortLE a b = true ∨ histSortLE b a = true := by
  unfold histSortLE strLeB
  cases hab : strLtB b.date a.date with
  | true => left; simp [hab]
  | false =>
    cases hba : strLtB a.date b.date with
    | true => right; simp [hba]
    | false =>
      have hd : a.date = b.date := strLtB_connex hba hab
      cases hemp : strLtB b.employeeID a.employeeID with
      | false => left; simp [hab, hd, hemp]
      | true =>
        right
        have hemp2 : strLtB a.employeeID b.employeeID = false := by
          cases h2 : strLtB a.employeeID b.employeeID with
          | false => rfl
          | true => exact absurd (listLtB_asymm h2 hemp) (fun h => h)
        simp [hba, hd, hemp2]

/-- Transitivity of the persisted-table sort order. -/
theorem histSortLE_trans (a b c : Stage3Row) (hab : histSortLE a b = true)
    (hbc : histSortLE b c = true) : histSortLE a c = true := by
  unfold histSortLE at *
  rcases Bool.or_eq_true_iff.mp hab with h1 | h1 <;>
    rcases Bool.or_eq_true_iff.mp hbc with h2 | h2
  · exact Bool.or_eq_true_iff.mpr (Or.inl (listLtB_trans h2 h1))
  · rw [Bool.and_eq_true] at h2
    obtain ⟨he, _⟩ := h2
    have he' : b.date = c.date := of_decide_eq_true he
    exact Bool.or_eq_true_iff.mpr (Or.inl (he' ▸ h1))
  · rw [Bool.and_eq_true] at h1
    obtain ⟨he, _⟩ := h1
    have he' : a.date = b.date := of_decide_eq_true he
    exact Bool.or_eq_true_iff.mpr (Or.inl (by rw [he']; exact h2))
  · rw [Bool.and_eq_true] at h1 h2
    obtain ⟨he1, hl1⟩ := h1
    obtain ⟨he2, hl2⟩ := h2
    have hd1 : a.date = b.date := of_decide_eq_true he1
    have hd2 : b.date = c.date := of_decide_eq_true he2
    have hle : strLeB a.employeeID c.employeeID = true := by
      unfold strLeB at *
      cases hca : strLtB c.employeeID a.employeeID with
    | false => rfl
    | true =>
      exfalso
      cases hba : strLtB b.employeeID a.employeeID with
      | true => simp [hba] at hl1
      | false =>
        cases hcb : strLtB c.employeeID b.employeeID with
        | true => simp [hcb] at hl2
        | false =>
          cases hab2 : strLtB a.employeeID b.employeeID with
          | false =>
            have heq : a.employeeID = b.employeeID := strLtB_connex hab2 hba
            rw [← heq] at hcb
            simp [hca] at hcb
          | true =>
            cases hbc2 : strLtB b.employeeID c.employeeID with
            | false =>
              have heq : b.employeeID = c.employeeID := strLtB_connex hbc2 hcb
              rw [heq] at hba
              simp [hca] at hba
            | true =>
              exact listLtB_asymm (listLtB_trans hab2 hbc2) hca
    have hdd : a.date = c.date := hd1.trans hd2
    simp [hdd, hle]

theorem mem_dedupKeepFirstAux [DecidableEq α] (seen l : List α) (x : α) :
    x ∈ dedupKeepFirstAux seen l ↔ x ∈ l ∧ x ∉ seen := by
  induction l generalizing seen with
  | nil => simp [dedupKeepFirstAux]
  | cons a l ih =>
    simp only [dedupKeepFirstAux]
    split_ifs with ha
    · rw [ih seen]
      constructor
      · rintro ⟨h1, h2⟩
        exact ⟨List.mem_cons_of_mem a h1, h2⟩
      · rintro ⟨h1, h2⟩
        rcases List.mem_cons.mp h1 with rfl | h1'
        · exact absurd ha h2
        · exact ⟨h1', h2⟩
    · constructor
      · intro hmem
        rcases List.mem_cons.mp hmem with rfl | hmem'
        · exact ⟨List.mem_cons_self _ _, ha⟩
        · obtain ⟨h1, h2⟩ := (ih (a :: seen)).mp hmem'
          exact ⟨List.mem_cons_of_mem a h1, fun hx => h2 (List.mem_cons_of_mem a hx)⟩
      · rintro ⟨h1, h2⟩
        rcases List.mem_cons.mp h1 with rfl | h1'
        · exact List.mem_cons_self _ _
        · by_cases hxa : x = a
          · exact hxa ▸ List.mem_cons_self _ _
          · refine List.mem_cons_of_mem a ((ih (a :: seen)).mpr ⟨h1', ?_⟩)
            intro hx
            rcases List.mem_cons.mp hx with h | h
            · exact hxa h
            · exact h2 h

theorem mem_dedupKeepFirst [DecidableEq α] (l : List α) (x : α) :
    x ∈ dedupKeepFirst l ↔ x ∈ l := by
  rw [dedupKeepFirst, mem_dedupKeepFirstAux]
  simp

theorem merge_daily_eq (existing new : List Stage3Row) :
    merge_daily existing new =
      (existing.filter (fun r => r.date ∉ dates_to_replace new) ++ new).insertionSort
        (fun a b => histSortLE a b = true) := by
  unfold merge_daily
  by_cases hex : existing.isEmpty <;> by_cases hnew : new.isEmpty
  · have hex' : existing = [] := List.isEmpty_iff.mp hex
    have hnew' : new = [] := List.isEmpty_iff.mp hnew
    subst hex'
    subst hnew'
    simp
  · have hex' : existing = [] := List.isEmpty_iff.mp hex
    subst hex'
    simp [hnew]
  · have hnew' : new = [] := List.isEmpty_iff.mp hnew
    subst hnew'
    have hfilt : existing.filter
        (fun r => !decide (r.date ∈ dates_to_replace ([] : List Stage3Row))) = existing := by
      apply List.filter_eq_self.mpr
      intro r _
      simp [dates_to_replace, dedupKeepFirst, dedupKeepFirstAux]
    simp [hex, hfilt]
  · simp [hex, hnew]

/-- C2: the merge step of `run_full_upload` (given tables with at most one
row per (employee, date)) produces a table whose dates are the union of
the two tables' dates, which still has at most one row per
(employee, date), which contains every new row, whose remaining rows are
exactly the old rows of non-re-imported dates (re-imported dates are
replaced, never duplicated), and which is sorted by date descending then
employee id ascending. -/
theorem C2_merge_replace_by_date (existing new : List Stage3Row)
    (hex : existing.Pairwise (fun a b => ¬(a.employeeID = b.employeeID ∧ a.date = b.date)))
    (hnew : new.Pairwise (fun a b => ¬(a.employeeID = b.employeeID ∧ a.date = b.date))) :
    (∀ D : String, (∃ r ∈ merge_daily existing new, r.date = D) ↔
      ((∃ r ∈ existing, r.date = D) ∨ (∃ r ∈ new, r.date = D))) ∧
    (merge_daily existing new).Pairwise
      (fun a b => ¬(a.employeeID = b.employeeID ∧ a.date = b.date)) ∧
    (∀ r ∈ new, r ∈ merge_daily existing new) ∧
    (∀ r ∈ merge_daily existing new,
      r ∈ new ∨ (r ∈ existing ∧ r.date ∉ dates_to_replace new)) ∧
    (merge_daily existing new).Sorted (fun a b => histSortLE a b = true) := by
  have hperm : (merge_daily existing new).Perm
      (existing.filter (fun r => r.date ∉ dates_to_replace new) ++ new) := by
    rw [merge_daily_eq]
    exact List.perm_insertionSort _ _
  have hmm : ∀ r : Stage3Row, r ∈ merge_daily existing new ↔
      (r ∈ existing.filter (fun r => r.date ∉ dates_to_replace new) ∨ r ∈ new) := by
    intro r
    rw [hperm.mem_iff, List.mem_append]
  refine ⟨?_, ?_, ?_, ?_, ?_⟩
  · intro D
    constructor
    · rintro ⟨r, hr, rfl⟩
      rcases (hmm r).mp hr with h | h
      · exact Or.inl ⟨r, (List.mem_filter.mp h).1, rfl⟩
      · exact Or.inr ⟨r, h, rfl⟩
    · rintro (⟨r, hr, rfl⟩ | ⟨r, hr, rfl⟩)
      · by_cases hD : r.date ∈ dates_to_replace new
        · rw [dates_to_replace, mem_dedupKeepFirst] at hD
          obtain ⟨r', hr', hd'⟩ := List.mem_map.mp hD
          exact ⟨r', (hmm r').mpr (Or.inr hr'), hd'⟩
        · exact ⟨r, (hmm r).mpr (Or.inl (List.mem_filter.mpr
            ⟨hr, decide_eq_true hD⟩)), rfl⟩
      · exact ⟨r, (hmm r).mpr (Or.inr hr), rfl⟩
  · have hsymm : ∀ {x y : Stage3Row},
        ¬(x.employeeID = y.employeeID ∧ x.date = y.date) →
        ¬(y.employeeID = x.employeeID ∧ y.date = x.date) := by
      intro x y h hc
      exact h ⟨hc.1.symm, hc.2.symm⟩
    rw [List.Perm.pairwise_iff hsymm hperm, List.pairwise_append]
    refine ⟨hex.filter _, hnew, ?_⟩
    intro a ha b hb hcontra
    have haf := List.mem_filter.mp ha
    have hmem : a.date ∈ dates_to_replace new := by
      rw [hcontra.2, dates_to_replace, mem_dedupKeepFirst]
      exact List.mem_map.mpr ⟨b, hb, rfl⟩
    have := of_decide_eq_true haf.2
    exact this hmem
  · intro r hr
    exact (hmm r).mpr (Or.inr hr)
  · intro r hr
    rcases (hmm r).mp hr with h | h
    · obtain ⟨h1, h2⟩ := List.mem_filter.mp h
      exact Or.inr ⟨h1, of_decide_eq_true h2⟩
    · exact Or.inl h
  · rw [merge_daily_eq]
    exact @List.sorted_insertionSort _ _ _ ⟨fun a b => histSortLE_total a b⟩
      ⟨fun a b c => histSortLE_trans a b c⟩ _

/-- Witness for C2: two prior pay-period rows merged with an upload that
overlaps one date (with another employee) and adds a fresh date. -/
theorem C2_merge_replace_by_date_witness :
    ([hist1, hist2].Pairwise
      (fun a b => ¬(a.employeeID = b.employeeID ∧ a.date = b.date))) ∧
    ([histNew1, histNew2].Pairwise
      (fun a b => ¬(a.employeeID = b.employeeID ∧ a.date = b.date))) ∧
    (merge_daily [hist1, hist2] [histNew1, histNew2]).Pairwise
      (fun a b => ¬(a.employeeID = b.employeeID ∧ a.date = b.date)) ∧
    (∀ r ∈ [histNew1, histNew2],
      r ∈ merge_daily [hist1, hist2] [histNew1, histNew2]) ∧
    (merge_daily [hist1, hist2] [histNew1, histNew2]).Sorted
      (fun a b => histSortLE a b = true) := by
  have h1 : [hist1, hist2].Pairwise
      (fun a b => ¬(a.employeeID = b.employeeID ∧ a.date = b.date)) := by decide
  have h2 : [histNew1, histNew2].Pairwise
      (fun a b => ¬(a.employeeID = b.employeeID ∧ a.date = b.date)) := by decide
  exact ⟨h1, h2, (C2_merge_replace_by_date _ _ h1 h2).2.1,
    (C2_merge_replace_by_date _ _ h1 h2).2.2.1,
    (C2_merge_replace_by_date _ _ h1 h2).2.2.2.2⟩

/-! ### Stage 1 anti-join and aggregation (C5) -/

theorem stage1_eq (raw : List RawTaskRow) (s e : ℚ) (h : raw ≠ []) :
    stage1_task_processing raw s e =
      (stage1_employees (stage1_kept (stage1_filtered raw s e))).map
        (stage1_agg_row (stage1_kept (stage1_filtered raw s e))) := by
  cases raw with
  | nil => exact absurd rfl h
  | cons a l => rfl

/-- C5: every row of the (re-filtered) batch whose natural key
`(case, timestamp, task, employee)` occurs among the rejected keys is
removed before aggregation (in particular the rejected duplicate removes
both itself and the matching task row); no kept row has a rejected key;
the output contains, for each employee with surviving rows, exactly the
aggregate of the remaining rows (distinct case count, row count,
2-decimal summed duration); and every output row is such an aggregate of
some employee with surviving rows. -/
theorem C5_stage1_rejection_anti_join (raw : List RawTaskRow) (s e : ℚ)
    (r : RawTaskRow) (eid : Int)
    (hr : r ∈ stage1_filtered raw s e)
    (hrej : taskKey r ∈ rejected_keys (stage1_filtered raw s e))
    (heid : ∃ q ∈ stage1_kept (stage1_filtered raw s e), q.employeeID = eid) :
    r ∉ stage1_kept (stage1_filtered raw s e) ∧
    stage1_agg_row (stage1_kept (stage1_filtered raw s e)) eid ∈
      stage1_task_processing raw s e ∧
    stage1_agg_row (stage1_kept (stage1_filtered raw s e)) eid =
      { employeeID := toString eid
        cases_worked_on := (dedupKeepFirst
          (((stage1_kept (stage1_filtered raw s e)).filter
            (fun q => q.employeeID = eid)).map (fun q => q.caseNumber))).length
        tasks_completed := ((stage1_kept (stage1_filtered raw s e)).filter
          (fun q => q.employeeID = eid)).length
        tasks_duration_hours := round2 ((((stage1_kept (stage1_filtered raw s e)).filter
          (fun q => q.employeeID = eid)).map stage1_duration).sum) } ∧
    (∀ q ∈ stage1_kept (stage1_filtered raw s e),
      taskKey q ∉ rejected_keys (stage1_filtered raw s e)) ∧
    (∀ out ∈ stage1_task_processing raw s e, ∃ eid2 : Int,
      out = stage1_agg_row (stage1_kept (stage1_filtered raw s e)) eid2 ∧
      ∃ q ∈ stage1_kept (stage1_filtered raw s e), q.employeeID = eid2) := by
  have hne : raw ≠ [] := by
    intro hnil
    subst hnil
    simp [stage1_filtered] at hr
  have hkeptmem : ∀ q : RawTaskRow, q ∈ stage1_kept (stage1_filtered raw s e) →
      taskKey q ∉ rejected_keys (stage1_filtered raw s e) := by
    intro q hq
    exact of_decide_eq_true (List.mem_filter.mp hq).2
  refine ⟨?_, ?_, rfl, hkeptmem, ?_⟩
  · intro hcontra
    exact hkeptmem r hcontra hrej
  · obtain ⟨q, hq, rfl⟩ := heid
    rw [stage1_eq raw s e hne]
    refine List.mem_map.mpr ⟨q.employeeID, ?_, rfl⟩
    unfold stage1_employees
    rw [(List.perm_insertionSort _ _).mem_iff, mem_dedupKeepFirst]
    exact List.mem_map.mpr ⟨q, hq, rfl⟩
  · intro out hout
    rw [stage1_eq raw s e hne] at hout
    obtain ⟨eid2, he2, rfl⟩ := List.mem_map.mp hout
    refine ⟨eid2, rfl, ?_⟩
    unfold stage1_employees at he2
    rw [(List.perm_insertionSort _ _).mem_iff, mem_dedupKeepFirst] at he2
    obtain ⟨q, hq, rfl⟩ := List.mem_map.mp he2
    exact ⟨q, hq, rfl⟩

theorem stage1_filtered_sample :
    stage1_filtered [r5a, r5b, r5c] 0 9 = [r5a, r5b, r5c] := by
  have h10 : (9 : ℚ) + 1 = 10 := by norm_num
  simp [stage1_filtered, r5a, r5b, r5c, h10]
  norm_num

theorem stage1_kept_sample :
    stage1_kept (stage1_filtered [r5a, r5b, r5c] 0 9) = [r5c] := by
  rw [stage1_filtered_sample]
  decide

/-- Witness for C5: a task row, its identically-keyed rejected duplicate
and a surviving row of another employee. -/
theorem C5_stage1_rejection_anti_join_witness :
    r5a ∈ stage1_filtered [r5a, r5b, r5c] 0 9 ∧
    taskKey r5a ∈ rejected_keys (stage1_filtered [r5a, r5b, r5c] 0 9) ∧
    (∃ q ∈ stage1_kept (stage1_filtered [r5a, r5b, r5c] 0 9),
      q.employeeID = 8) ∧
    r5a ∉ stage1_kept (stage1_filtered [r5a, r5b, r5c] 0 9) ∧
    stage1_agg_row (stage1_kept (stage1_filtered [r5a, r5b, r5c] 0 9)) 8 ∈
      stage1_task_processing [r5a, r5b, r5c] 0 9 := by
  have hr : r5a ∈ stage1_filtered [r5a, r5b, r5c] 0 9 := by
    rw [stage1_filtered_sample]
    decide
  have hrej : taskKey r5a ∈ rejected_keys (stage1_filtered [r5a, r5b, r5c] 0 9) := by
    rw [stage1_filtered_sample]
    decide
  have heid : ∃ q ∈ stage1_kept (stage1_filtered [r5a, r5b, r5c] 0 9),
      q.employeeID = 8 := ⟨r5c, by rw [stage1_kept_sample]; decide, rfl⟩
  exact ⟨hr, hrej, heid,
    (C5_stage1_rejection_anti_join [r5a, r5b, r5c] 0 9 r5a 8 hr hrej heid).1,
    (C5_stage1_rejection_anti_join [r5a, r5b, r5c] 0 9 r5a 8 hr hrej heid).2.1⟩

/-! ### Stage 4 training plan (C7) -/

theorem foldl_max_self_or_mem (l : List Int) (a : Int) :
    l.foldl max a = a ∨ l.foldl max a ∈ l := by
  induction l generalizing a with
  | nil => exact Or.inl rfl
  | cons b l ih =>
    rcases ih (max a b) with h | h
    · rcases max_choice a b with hm | hm
      · exact Or.inl (by simp only [List.foldl_cons]; rw [h, hm])
      · refine Or.inr (List.mem_cons.mpr (Or.inl ?_))
        simp only [List.foldl_cons]
        rw [h, hm]
    · exact Or.inr (List.mem_cons_of_mem b h)

theorem stage4_max_date_mem (df : List Stage4Row) (h : df ≠ []) :
    ∃ r ∈ df, r.date = stage4_max_date df := by
  cases df with
  | nil => exact absurd rfl h
  | cons r rs =>
    unfold stage4_max_date
    simp only [List.map_cons]
    rcases foldl_max_self_or_mem (rs.map (fun r => r.date)) r.date with hm | hm
    · exact ⟨r, List.mem_cons_self _ _, hm.symm⟩
    · obtain ⟨q, hq, hqd⟩ := List.mem_map.mp hm
      exact ⟨q, List.mem_cons_of_mem r hq, hqd⟩

theorem stage4_max_date_le (df : List Stage4Row) :
    ∀ r ∈ df, r.date ≤ stage4_max_date df := by
  cases df with
  | nil => intro r hr; cases hr
  | cons a rs =>
    intro r hr
    unfold stage4_max_date
    simp only [List.map_cons]
    rcases List.mem_cons.mp hr with rfl | hr'
    · exact le_foldl_max _ _
    · exact mem_le_foldl_max _ _ _ (List.mem_map.mpr ⟨r, hr', rfl⟩)

theorem stage4_training_plan_eq (df : List Stage4Row) (n : String) :
    stage4_training_plan df n =
      (match df.find? (fun r => r.date = stage4_max_date df ∧ r.mtName = n) with
        | some r => r.trainingPlan
        | none => 0) := by
  have hfind : (df.filter (fun r => r.date = stage4_max_date df)).find?
      (fun r => r.mtName = n) =
      df.find? (fun r => r.date = stage4_max_date df ∧ r.mtName = n) := by
    rw [List.find?_filter]
    congr 1
    funext a
    simp [decide_eq_true_eq]
  unfold stage4_training_plan
  rw [hfind]

theorem stage4_row_shape (hol : List Int) (df : List Stage4Row) (ref : Date)
    (row : AggRow) (hrow : row ∈ stage4_aggregated hol df ref) :
    ∃ p ∈ stage4_pre hol df ref, row.mtName = p.mtName ∧ row.team = p.team ∧
      row.trainingPlan = p.trainingPlan := by
  unfold stage4_aggregated at hrow
  split at hrow
  · cases hrow
  · obtain ⟨ip, hip, rfl⟩ := List.mem_map.mp hrow
    exact ⟨ip.2, List.snd_mem_of_mem_enum hip, rfl, rfl, rfl⟩

theorem stage4_pre_shape (hol : List Int) (df : List Stage4Row) (ref : Date)
    (p : Stage4Pre) (hp : p ∈ stage4_pre hol df ref) :
    p.trainingPlan = stage4_training_plan df p.mtName ∧
    p.team = first_team df p.mtName ∧
    p.vals = (stage4_periods hol ref).map
      (fun per => (eff_for_period df p.mtName per.2.1 per.2.2).map
        (fun q => round2 (q / 100))) := by
  obtain ⟨n, _, rfl⟩ := List.mem_map.mp hp
  exact ⟨rfl, rfl, rfl⟩

/-- C7 (amended): for every row of the Stage-4 output, the Training Plan
column equals the flag of the employee's first row on the single most
recent date present in the historical table when the employee has a row
on that date, and 0 otherwise; the most recent date is a genuine maximum
of the table's dates. (The claim as frozen omits the 0-default for
employees absent on the most recent date — see the counterexample.) -/
theorem C7_training_plan_from_latest_date (hol : List Int) (df : List Stage4Row)
    (ref : Date) (row : AggRow) (hrow : row ∈ stage4_aggregated hol df ref) :
    (∃ r ∈ df, r.date = stage4_max_date df) ∧
    (∀ r ∈ df, r.date ≤ stage4_max_date df) ∧
    row.trainingPlan =
      (match df.find? (fun r => r.date = stage4_max_date df ∧ r.mtName = row.mtName) with
        | some r => r.trainingPlan
        | none => 0) := by
  have hne : df ≠ [] := by
    intro hnil
    subst hnil
    rw [show stage4_aggregated hol [] ref = [] from rfl] at hrow
    cases hrow
  obtain ⟨p, hp, hname, _, htp⟩ := stage4_row_shape hol df ref row hrow
  refine ⟨stage4_max_date_mem df hne, stage4_max_date_le df, ?_⟩
  rw [htp, (stage4_pre_shape hol df ref p hp).1, stage4_training_plan_eq, hname]

/-- Counterexample to C7 as frozen: employee B's only (hence most recent)
historical row carries training-plan flag 1, but B has no row on the
table's single most recent date (200, which belongs to employee A), so
the output reports 0 for B — not B's flag from a most recent date. -/
theorem C7_training_plan_counterexample :
    stage4_max_date [z4A, z4B] = 200 ∧
    [z4A, z4B].filter (fun r => r.mtName = "B") = [z4B] ∧
    z4B.trainingPlan = 1 ∧
    ((stage4_aggregated [] [z4A, z4B] refJan8).find?
        (fun row => row.mtName = "B")).map (fun row => row.trainingPlan) = some 0 ∧
    (0 : Int) ≠ 1 :=
  ⟨by decide, by decide, by decide, by decide, by decide⟩

/-- Witness for C7's amended statement at a concrete two-employee table. -/
theorem C7_training_plan_from_latest_date_witness :
    (⟨"A", "T", 0, []⟩ : AggRow) ∈ stage4_aggregated [] [z4A, z4B] refJan8 ∧
    ((∃ r ∈ [z4A, z4B], r.date = stage4_max_date [z4A, z4B]) ∧
      (∀ r ∈ [z4A, z4B], r.date ≤ stage4_max_date [z4A, z4B]) ∧
      (⟨"A", "T", 0, []⟩ : AggRow).trainingPlan =
        (match [z4A, z4B].find? (fun r => r.date = stage4_max_date [z4A, z4B] ∧
            r.mtName = (⟨"A", "T", 0, []⟩ : AggRow).mtName) with
          | some r => r.trainingPlan
          | none => 0)) := by
  have hrow : (⟨"A", "T", 0, []⟩ : AggRow) ∈ stage4_aggregated [] [z4A, z4B] refJan8 := by
    decide
  exact ⟨hrow, C7_training_plan_from_latest_date [] [z4A, z4B] refJan8 _ hrow⟩

/-! ### Stage 4 sentinel and column-drop semantics (C4) -/

theorem stage4_labels_nodup : stage4_labels.Nodup := by decide

theorem stage4_labels_length : stage4_labels.length = 19 := by decide

theorem stage4_aggregated_eq (hol : List Int) (df : List Stage4Row) (ref : Date)
    (hne : df ≠ []) :
    stage4_aggregated hol df ref = (stage4_pre hol df ref).enum.map (fun ip =>
      ({ mtName := ip.2.mtName
         team := ip.2.team
         trainingPlan := ip.2.trainingPlan
         metrics := stage4_labels.enum.filterMap (fun jl =>
           if stage4_keep (stage4_pre hol df ref) jl.1 then
             some (jl.2, (stage4_col (stage4_pre hol df ref) jl.1).getD ip.1 (Cell.val 0))
           else none) } : AggRow)) := by
  unfold stage4_aggregated
  rw [if_neg (fun hh => hne (List.isEmpty_iff.mp hh))]

theorem stage4_aggregated_getD (hol : List Int) (df : List Stage4Row) (ref : Date)
    (hne : df ≠ []) (i : Nat) (hi : i < (stage4_pre hol df ref).length) :
    (stage4_aggregated hol df ref).getD i default =
      { mtName := ((stage4_pre hol df ref).getD i default).mtName
        team := ((stage4_pre hol df ref).getD i default).team
        trainingPlan := ((stage4_pre hol df ref).getD i default).trainingPlan
        metrics := stage4_labels.enum.filterMap (fun jl =>
          if stage4_keep (stage4_pre hol df ref) jl.1 then
            some (jl.2, (stage4_col (stage4_pre hol df ref) jl.1).getD i (Cell.val 0))
          else none) } := by
  rw [stage4_aggregated_eq hol df ref hne]
  have hlen : i < (((stage4_pre hol df ref).enum.map (fun ip =>
      ({ mtName := ip.2.mtName
         team := ip.2.team
         trainingPlan := ip.2.trainingPlan
         metrics := stage4_labels.enum.filterMap (fun jl =>
           if stage4_keep (stage4_pre hol df ref) jl.1 then
             some (jl.2, (stage4_col (stage4_pre hol df ref) jl.1).getD ip.1 (Cell.val 0))
           else none) } : AggRow)))).length := by
    simp [hi]
  rw [List.getD_eq_getElem _ _ hlen, List.getElem_map, List.getElem_enum,
    List.getD_eq_getElem _ _ hi]

theorem col_cells_length (vals : List (Option ℚ)) :
    (col_cells vals).length = vals.length := by
  unfold col_cells
  split <;> simp

theorem stage4_col_length (pre : List Stage4Pre) (j : Nat) :
    (stage4_col pre j).length = pre.length := by
  unfold stage4_col
  rw [col_cells_length, List.length_map]

theorem stage4_keep_not_all_none {pre : List Stage4Pre} {j : Nat}
    (h : stage4_keep pre j = true) :
    (pre.map (fun p => p.vals.getD j none)).all (fun v => v.isNone) = false := by
  cases hcase : (pre.map (fun p => p.vals.getD j none)).all (fun v => v.isNone) with
  | false => rfl
  | true =>
    exfalso
    have hzero : (stage4_col pre j).all (fun c => c = Cell.val 0) = true := by
      unfold stage4_col col_cells
      rw [if_pos hcase]
      rw [List.all_eq_true]
      intro c0 hc0
      obtain ⟨v, _, rfl⟩ := List.mem_map.mp hc0
      exact decide_eq_true rfl
    have := of_decide_eq_true h
    exact this hzero

theorem stage4_col_getD_of_keep {pre : List Stage4Pre} {j i : Nat}
    (hi : i < pre.length) (hk : stage4_keep pre j = true) :
    (stage4_col pre j).getD i (Cell.val 0) =
      (match (pre.getD i default).vals.getD j none with
        | some q => Cell.val q
        | none => Cell.x) := by
  have hfalse := stage4_keep_not_all_none hk
  unfold stage4_col col_cells
  rw [if_neg (by rw [hfalse]; exact Bool.false_ne_true)]
  have hlen : i < ((pre.map (fun p => p.vals.getD j none)).map (fun v =>
      match v with
      | some q => Cell.val q
      | none => Cell.x)).length := by
    simp [hi]
  have hlen2 : i < (pre.map (fun p => p.vals.getD j none)).length := by
    simp [hi]
  rw [List.getD_eq_getElem _ _ hlen, List.getElem_map, List.getElem_map,
    List.getD_eq_getElem _ _ hi]

theorem stage4_pre_ne_nil (hol : List Int) (df : List Stage4Row) (ref : Date)
    (hne : df ≠ []) : stage4_pre hol df ref ≠ [] := by
  obtain ⟨r, rs, rfl⟩ : ∃ r rs, df = r :: rs := by
    cases df with
    | nil => exact absurd rfl hne
    | cons a l => exact ⟨a, l, rfl⟩
  intro hp
  have hmem : r.mtName ∈ stage4_names (r :: rs) := by
    unfold stage4_names
    rw [(List.perm_insertionSort _ _).mem_iff, mem_dedupKeepFirst]
    exact List.mem_map.mpr ⟨r, List.mem_cons_self _ _, rfl⟩
  unfold stage4_pre at hp
  rw [List.map_eq_nil_iff] at hp
  rw [hp] at hmem
  cases hmem

/-- The label-position membership used to address one metric column. -/
theorem stage4_labels_enum_mem (j : Nat) (hj : j < stage4_labels.length) :
    (j, stage4_labels.getD j "") ∈ stage4_labels.enum := by
  have hlen : j < stage4_labels.enum.length := by
    rw [List.enum_length]
    exact hj
  have := List.getElem_mem hlen
  rw [List.getElem_enum] at this
  rw [List.getD_eq_getElem _ _ hj]
  exact this

theorem stage4_periods_length (hol : List Int) (ref : Date) :
    (stage4_periods hol ref).length = stage4_labels.length := by
  simp [stage4_periods, stage4_labels]

/-- C4 (amended): in the Stage-4 output, whenever a metric column is kept
(present in the output schema), an employee whose converted per-period
value is missing gets the not-applicable cell "x" and an employee with a
value gets that value as the cell; the cell values are the per-period
nonzero-mean efficiencies converted by `round2 (mean / 100)`; a column is
absent from every output row exactly when all of its cells equal numeric
0, which happens exactly when either every employee has no qualifying
data for the period (the whole column is then set wholesale to the
numeric-0 sentinel) or every employee's converted mean equals 0. The
frozen claim's "dropped exactly when every employee has no qualifying
data" fails on the second alternative — see the counterexample. -/
theorem C4_stage4_sentinels (hol : List Int) (df : List Stage4Row) (ref : Date)
    (i j : Nat) (hi : i < (stage4_pre hol df ref).length)
    (hj : j < stage4_labels.length) :
    (stage4_keep (stage4_pre hol df ref) j = true →
      (((stage4_pre hol df ref).getD i default).vals.getD j none = none →
        (stage4_labels.getD j "", Cell.x) ∈
          ((stage4_aggregated hol df ref).getD i default).metrics) ∧
      (∀ q : ℚ, ((stage4_pre hol df ref).getD i default).vals.getD j none = some q →
        (stage4_labels.getD j "", Cell.val q) ∈
          ((stage4_aggregated hol df ref).getD i default).metrics)) ∧
    ((∀ c ∈ stage4_col (stage4_pre hol df ref) j, c = Cell.val 0) ↔
      (∀ row ∈ stage4_aggregated hol df ref, ∀ cl : Cell,
        (stage4_labels.getD j "", cl) ∉ row.metrics)) ∧
    ((∀ c ∈ stage4_col (stage4_pre hol df ref) j, c = Cell.val 0) ↔
      ((∀ p ∈ stage4_pre hol df ref, p.vals.getD j none = none) ∨
        (∀ p ∈ stage4_pre hol df ref, p.vals.getD j none = some 0))) ∧
    (∀ p ∈ stage4_pre hol df ref, p.vals.getD j none =
      (eff_for_period df p.mtName
        ((stage4_periods hol ref).getD j ("", 0, 0)).2.1
        ((stage4_periods hol ref).getD j ("", 0, 0)).2.2).map
          (fun q => round2 (q / 100))) ∧
    ((∀ p ∈ stage4_pre hol df ref, p.vals.getD j none = none) →
      ∀ c ∈ stage4_col (stage4_pre hol df ref) j, c = Cell.val 0) := by
  have hne : df ≠ [] := by
    intro h
    subst h
    have hpre0 : stage4_pre hol [] ref = [] := rfl
    rw [hpre0] at hi
    simp at hi
  have hperiods_len : j < (stage4_periods hol ref).length := by
    rw [stage4_periods_length]
    exact hj
  have hmetrics_mem : ∀ _ : stage4_keep (stage4_pre hol df ref) j = true,
      (stage4_labels.getD j "",
        (stage4_col (stage4_pre hol df ref) j).getD i (Cell.val 0)) ∈
        ((stage4_aggregated hol df ref).getD i default).metrics := by
    intro hk
    rw [stage4_aggregated_getD hol df ref hne i hi]
    refine List.mem_filterMap.mpr ⟨(j, stage4_labels.getD j ""),
      stage4_labels_enum_mem j hj, ?_⟩
    simp [hk]
  have hiii : (∀ c ∈ stage4_col (stage4_pre hol df ref) j, c = Cell.val 0) ↔
      ((∀ p ∈ stage4_pre hol df ref, p.vals.getD j none = none) ∨
        (∀ p ∈ stage4_pre hol df ref, p.vals.getD j none = some 0)) := by
    constructor
    · intro hall
      by_cases hnone : ((stage4_pre hol df ref).map
          (fun p => p.vals.getD j none)).all (fun v => v.isNone) = true
      · left
        intro p hp
        rw [List.all_eq_true] at hnone
        have hzn := hnone (p.vals.getD j none) (List.mem_map.mpr ⟨p, hp, rfl⟩)
        exact Option.isNone_iff_eq_none.mp hzn
      · right
        intro p hp
        have hcmem : (match p.vals.getD j none with
            | some q => Cell.val q
            | none => Cell.x) ∈ stage4_col (stage4_pre hol df ref) j := by
          unfold stage4_col col_cells
          rw [if_neg hnone]
          exact List.mem_map.mpr ⟨p.vals.getD j none,
            List.mem_map.mpr ⟨p, hp, rfl⟩, rfl⟩
        have hz := hall _ hcmem
        cases hv : p.vals.getD j none with
        | none =>
          rw [hv] at hz
          cases hz
        | some q =>
          rw [hv] at hz
          injection hz with hq
          rw [hq]
    · intro h c hc
      rcases h with hnone | hzero
      · have hn : ((stage4_pre hol df ref).map
            (fun p => p.vals.getD j none)).all (fun v => v.isNone) = true := by
          rw [List.all_eq_true]
          intro v hv
          obtain ⟨p, hp, rfl⟩ := List.mem_map.mp hv
          rw [hnone p hp]
          rfl
        unfold stage4_col col_cells at hc
        rw [if_pos hn] at hc
        obtain ⟨_, _, rfl⟩ := List.mem_map.mp hc
        rfl
      · by_cases hn : ((stage4_pre hol df ref).map
            (fun p => p.vals.getD j none)).all (fun v => v.isNone) = true
        · unfold stage4_col col_cells at hc
          rw [if_pos hn] at hc
          obtain ⟨_, _, rfl⟩ := List.mem_map.mp hc
          rfl
        · unfold stage4_col col_cells at hc
          rw [if_neg hn] at hc
          obtain ⟨v, hv, rfl⟩ := List.mem_map.mp hc
          obtain ⟨p, hp, rfl⟩ := List.mem_map.mp hv
          rw [hzero p hp]
  refine ⟨?_, ?_, hiii, ?_, fun h => hiii.mpr (Or.inl h)⟩
  · intro hk
    constructor
    · intro hv
      have := hmetrics_mem hk
      rw [stage4_col_getD_of_keep hi hk, hv] at this
      exact this
    · intro q hv
      have := hmetrics_mem hk
      rw [stage4_col_getD_of_keep hi hk, hv] at this
      exact this
  · constructor
    · intro hall row hrow cl hmem
      have hkf : stage4_keep (stage4_pre hol df ref) j = false := by
        cases hkc : stage4_keep (stage4_pre hol df ref) j with
        | false => rfl
        | true =>
          exfalso
          apply of_decide_eq_true hkc
          rw [List.all_eq_true]
          intro c hc
          exact decide_eq_true (hall c hc)
      rw [stage4_aggregated_eq hol df ref hne] at hrow
      obtain ⟨ip, hip, rfl⟩ := List.mem_map.mp hrow
      obtain ⟨jl, hjl, hg⟩ := List.mem_filterMap.mp hmem
      by_cases hkj : stage4_keep (stage4_pre hol df ref) jl.1 = true
      · rw [if_pos hkj] at hg
        injection hg with hg'
        have hjl2 := List.mem_enum_iff_getElem?.mp hjl
        have hjlt : jl.1 < stage4_labels.length := by
          by_contra hge
          rw [List.getElem?_eq_none (by omega)] at hjl2
          cases hjl2
        rw [List.getElem?_eq_getElem hjlt] at hjl2
        injection hjl2 with hjl3
        have hfst : jl.2 = stage4_labels.getD j "" := congrArg Prod.fst hg'
        rw [List.getD_eq_getElem _ _ hj] at hfst
        rw [← hjl3] at hfst
        have : jl.1 = j := (stage4_labels_nodup.getElem_inj_iff).mp hfst
        rw [this] at hkj
        rw [hkj] at hkf
        cases hkf
      · rw [if_neg hkj] at hg
        cases hg
    · intro habs c hc
      by_contra hcne
      have hk : stage4_keep (stage4_pre hol df ref) j = true := by
        apply decide_eq_true
        intro hallzero
        rw [List.all_eq_true] at hallzero
        exact hcne (of_decide_eq_true (hallzero c hc))
      have hmm := hmetrics_mem hk
      have hrow : (stage4_aggregated hol df ref).getD i default ∈
          stage4_aggregated hol df ref := by
        have hlen : i < (stage4_aggregated hol df ref).length := by
          rw [stage4_aggregated_eq hol df ref hne]
          simp [hi]
        rw [List.getD_eq_getElem _ _ hlen]
        exact List.getElem_mem hlen
      exact habs _ hrow _ hmm
  · intro p hp
    obtain ⟨_, _, hv⟩ := stage4_pre_shape hol df ref p hp
    rw [hv]
    have hlen : j < ((stage4_periods hol ref).map
        (fun per => (eff_for_period df p.mtName per.2.1 per.2.2).map
          (fun q => round2 (q / 100)))).length := by
      simp [hperiods_len]
    rw [List.getD_eq_getElem _ _ hlen, List.getElem_map,
      List.getD_eq_getElem _ _ hperiods_len]

theorem eff_c4A_day : eff_for_period [c4A] "A" 20095 20095 = some (1/5) := by
  norm_num [eff_for_period, c4A]

theorem eff_c4A_week : eff_for_period [c4A] "A" 20089 20095 = some (1/5) := by
  norm_num [eff_for_period, c4A]

theorem eff_c4A_mtd : eff_for_period [c4A] "A" 20089 20096 = some (1/5) := by
  norm_num [eff_for_period, c4A]

theorem eff_c4A_none : ∀ s e : Int, (20095 < s ∨ e < 20095) →
    eff_for_period [c4A] "A" s e = none := by
  intro s e h
  unfold eff_for_period
  have hfilt : ([c4A].filter (fun r => r.mtName = "A" ∧ s ≤ r.date ∧ r.date ≤ e)) = [] := by
    simp [c4A]
    omega
  rw [hfilt]
  rfl

theorem round2_tiny : round2 ((1/5 : ℚ) / 100) = 0 := by
  norm_num [round2, round_eq]

theorem c4_periods_eq : stage4_periods [] refJan8 =
    [("Efficiency_1_Day_Ago", 20095, 20095), ("Efficiency_2_Day_Ago", 20094, 20094),
     ("Efficiency_3_Day_Ago", 20091, 20091), ("Efficiency_4_Day_Ago", 20090, 20090),
     ("Efficiency_5_Day_Ago", 20089, 20089),
     ("Efficiency_Last_Week_Average", 20089, 20095),
     ("Efficiency_Month_To_Date", 20089, 20096),
     ("Efficiency_Previous_Month", 20058, 20088),
     ("Efficiency_2_Months_Ago", 20028, 20057),
     ("Efficiency_3_Months_Ago", 19997, 20027),
     ("Efficiency_4_Months_Ago", 19967, 19996),
     ("Efficiency_5_Months_Ago", 19936, 19966),
     ("Efficiency_6_Months_Ago", 19905, 19935),
     ("Efficiency_7_Months_Ago", 19875, 19904),
     ("Efficiency_8_Months_Ago", 19844, 19874),
     ("Efficiency_9_Months_Ago", 19814, 19843),
     ("Efficiency_10_Months_Ago", 19783, 19813),
     ("Efficiency_11_Months_Ago", 19754, 19782),
     ("Efficiency_12_Months_Ago", 19723, 19753)] := by
  decide

theorem c4_pre_eq : stage4_pre [] [c4A] refJan8 =
    [⟨"A", "T", 0,
      [some 0, none, none, none, none, some 0, some 0, none, none, none, none,
       none, none, none, none, none, none, none, none]⟩] := by
  have h1 : stage4_pre [] [c4A] refJan8 =
      [⟨"A", "T", 0, (stage4_periods [] refJan8).map
        (fun per => (eff_for_period [c4A] "A" per.2.1 per.2.2).map
          (fun q => round2 (q / 100)))⟩] := by
    unfold stage4_pre
    rw [show stage4_names [c4A] = ["A"] from by decide]
    rfl
  rw [h1, c4_periods_eq]
  simp only [List.map_cons, List.map_nil]
  rw [eff_c4A_day, eff_c4A_week, eff_c4A_mtd,
    eff_c4A_none 20094 20094 (by omega), eff_c4A_none 20091 20091 (by omega),
    eff_c4A_none 20090 20090 (by omega), eff_c4A_none 20089 20089 (by omega),
    eff_c4A_none 20058 20088 (by omega), eff_c4A_none 20028 20057 (by omega),
    eff_c4A_none 19997 20027 (by omega), eff_c4A_none 19967 19996 (by omega),
    eff_c4A_none 19936 19966 (by omega), eff_c4A_none 19905 19935 (by omega),
    eff_c4A_none 19875 19904 (by omega), eff_c4A_none 19844 19874 (by omega),
    eff_c4A_none 19814 19843 (by omega), eff_c4A_none 19783 19813 (by omega),
    eff_c4A_none 19754 19782 (by omega), eff_c4A_none 19723 19753 (by omega)]
  simp only [Option.map_some', Option.map_none', round2_tiny]

/-- Counterexample to C4 as frozen: a single employee with a genuinely
qualifying (nonzero, 0.2 percent) efficiency entry one business day
before the reference; the converted mean rounds to 0.00, so every metric
column — including the one for which the employee has qualifying data —
is dropped from the output, contradicting "dropped exactly when every
employee has no qualifying data for that period". -/
theorem C4_column_drop_counterexample :
    (day_label 1, 20095, 20095) ∈ stage4_periods [] refJan8 ∧
    eff_for_period [c4A] "A" 20095 20095 = some (1/5) ∧
    (1/5 : ℚ) ≠ 0 ∧
    stage4_aggregated [] [c4A] refJan8 = [⟨"A", "T", 0, []⟩] := by
  refine ⟨by decide, eff_c4A_day, by norm_num, ?_⟩
  rw [stage4_aggregated_eq [] [c4A] refJan8 (by simp), c4_pre_eq]
  decide

/-- Witness for C4's amended statement: employee A has no qualifying data
one business day before the reference while employee B does, so the
column is present and A's cell is the "x" marker. -/
theorem C4_stage4_sentinels_witness :
    0 < (stage4_pre [] [w4A, w4B] refJan8).length ∧
    0 < stage4_labels.length ∧
    stage4_keep (stage4_pre [] [w4A, w4B] refJan8) 0 = true ∧
    ((stage4_pre [] [w4A, w4B] refJan8).getD 0 default).vals.getD 0 none = none ∧
    (stage4_labels.getD 0 "", Cell.x) ∈
      ((stage4_aggregated [] [w4A, w4B] refJan8).getD 0 default).metrics := by
  have hi : 0 < (stage4_pre [] [w4A, w4B] refJan8).length := by decide
  have hj : 0 < stage4_labels.length := by decide
  have hk : stage4_keep (stage4_pre [] [w4A, w4B] refJan8) 0 = true := by decide
  have hv : ((stage4_pre [] [w4A, w4B] refJan8).getD 0 default).vals.getD 0 none =
      none := by decide
  exact ⟨hi, hj, hk, hv,
    ((C4_stage4_sentinels [] [w4A, w4B] refJan8 0 0 hi hj).1 hk).1 hv⟩
